import Mathlib

/-!
# implot3d_mmd_renderer: frame pipeline of `src/main.cpp`

A shallow embedding of the global application state `g_state` and of the
functions `LoadPMXModel`, `LoadVMDMotion`, `UpdateModelBuffers`,
`UpdateDeformedVertices`, `init`, `frame` and the argument loop of
`sokol_main`, followed by the properties of the frame pipeline.

Conventions of the embedding:
* `std::vector` is a `List`; `resize` and indexed assignment are modelled
  explicitly, the `for` loops are folds over `List.range`.
* `std::shared_ptr` / `std::unique_ptr` are `Option`s (`none` is the null pointer).
* `float` is IEEE-754 binary32 (`F32`): the product `time * 30.0f` is evaluated in
  binary32, round-to-nearest-even, and converted to a 64-bit `size_t` by truncation
  (undefined when the truncated value is not representable, modelled as `none`).
* `std::string` is a list of characters; `::tolower` acts on the letters `A`-`Z`.
* the `mmd` library (header `mmd/mmd.hxx`) is a parameter: `MmdLib` holds what its
  constructors and posing functions compute, and `ReadResult` says where a reader
  stopped.
* console output and the GUI/graphics calls are not part of the model.
-/

namespace Mmd

/-! ## binary32 -/

/-- An IEEE-754 binary32 datum: a finite value `(-1)^neg * m * 2^e`, an infinity or a NaN.
A finite datum is a binary32 number when `F32.Valid` holds. -/
inductive F32 where
  | finite (neg : Bool) (m : Nat) (e : Int)
  | inf (neg : Bool)
  | nan
deriving DecidableEq, Repr

/-- Binary digits of `n`, counted by halving at most `fuel` times. -/
def bitLengthAux : Nat → Nat → Nat
  | 0, _ => 0
  | fuel + 1, n => if n = 0 then 0 else bitLengthAux fuel (n / 2) + 1

/-- Number of binary digits of `n` (`0` for `n = 0`). -/
def bitLength (n : Nat) : Nat := bitLengthAux n n

/-- The integer nearest to `n / 2^k`, ties to even. -/
def shiftRoundNE (n k : Nat) : Nat :=
  let q := n / 2 ^ k
  let r := n % 2 ^ k
  if 2 * r < 2 ^ k then q
  else if 2 ^ k < 2 * r then q + 1
  else if q % 2 = 0 then q else q + 1

/-- Rounding of the exact value `(-1)^neg * n * 2^e` to binary32, round-to-nearest-even:
24 significant bits, least exponent `-149`, overflow to infinity when the rounded value
reaches `2^128`, that is when it has more than `128 - e'` binary digits. -/
def F32.round (neg : Bool) (n : Nat) (e : Int) : F32 :=
  let k : Nat := (max ((bitLength n : Int) - 24) (-149 - e)).toNat
  let q := shiftRoundNE n k
  let e' : Int := e + k
  if q ≠ 0 ∧ 129 ≤ (bitLength q : Int) + e' then F32.inf neg else F32.finite neg q e'

/-- The binary32 product `a * b`. -/
def F32.mul : F32 → F32 → F32
  | .finite s1 m1 e1, .finite s2 m2 e2 => F32.round (xor s1 s2) (m1 * m2) (e1 + e2)
  | .finite s1 m1 _, .inf s2 => if m1 = 0 then .nan else .inf (xor s1 s2)
  | .inf s1, .finite s2 m2 _ => if m2 = 0 then .nan else .inf (xor s1 s2)
  | .inf s1, .inf s2 => .inf (xor s1 s2)
  | .nan, _ => .nan
  | _, .nan => .nan

/-- The conversion `static_cast<size_t>(x)` with a 64-bit `size_t`: truncation toward zero,
undefined (`none`) when the truncated value is negative or at least `2^64`, or `x` is not finite. -/
def F32.toSizeT : F32 → Option Nat
  | .finite neg m e =>
    let t := if 0 ≤ e then m * 2 ^ e.toNat else m / 2 ^ (-e).toNat
    if neg && t != 0 then none
    else if t < 2 ^ 64 then some t else none
  | _ => none

/-- The rational value of a finite datum (`0` for infinities and NaN). -/
def F32.toRat : F32 → ℚ
  | .finite neg m e => (if neg then -1 else 1) * (m : ℚ) * (2 : ℚ) ^ e
  | _ => 0

/-- A finite datum is a binary32 number: 24-bit significand, exponent in range. -/
def F32.Valid : F32 → Prop
  | .finite _ m e => m < 2 ^ 24 ∧ -149 ≤ e ∧ e ≤ 104
  | _ => True

instance (x : F32) : Decidable x.Valid := by
  cases x <;> unfold F32.Valid <;> infer_instance

/-- The literal `0.0f`. -/
def F32.zero : F32 := .finite false 0 0

/-- The literal `30.0f` (`15 * 2^1`). -/
def F32.thirty : F32 := .finite false 15 1

/-! ## Data model -/

/-- The library type `mmd::Vector3f`, read through `p.x`, `p.y`, `p.z`. -/
structure Vector3f where
  x : F32
  y : F32
  z : F32
deriving DecidableEq, Repr

/-- The plotting type `ImPlot3DPoint`. -/
structure ImPlot3DPoint where
  x : F32
  y : F32
  z : F32
deriving DecidableEq, Repr

/-- The value-initialised point that `std::vector::resize` appends. -/
def ImPlot3DPoint.zero : ImPlot3DPoint := ⟨F32.zero, F32.zero, F32.zero⟩

/-- The library type `mmd::Vector3D<std::uint32_t>`: the three vertex indices `v[0..2]`. -/
structure Triangle where
  v0 : Nat
  v1 : Nat
  v2 : Nat
deriving DecidableEq, Repr

/-- The component `v[c]` of a triangle. -/
def Triangle.v (t : Triangle) (c : Nat) : Nat :=
  if c = 0 then t.v0 else if c = 1 then t.v1 else t.v2

/-- The library type `mmd::Model` as far as `main.cpp` reads it: `GetName`, `GetVertexNum` and
`GetVertex(i).GetCoordinate()`, `GetTriangleNum` and `GetTriangle(i)`, `GetBoneNum`. -/
structure Model where
  name : String
  vertices : List Vector3f
  triangles : List Triangle
  bone_num : Nat
deriving DecidableEq, Repr

/-- The invariant of a mesh: every triangle index is below the vertex count. -/
def Model.WellFormed (m : Model) : Prop :=
  ∀ t ∈ m.triangles,
    t.v0 < m.vertices.length ∧ t.v1 < m.vertices.length ∧ t.v2 < m.vertices.length

instance (m : Model) : Decidable m.WellFormed := by
  unfold Model.WellFormed
  infer_instance

/-- The library type `mmd::Motion`: its name and its keyframe data, which `main.cpp` never reads. -/
structure Motion where
  name : String
  keyframes : List Nat
deriving DecidableEq, Repr

/-- The member `pose_image` of a poser: the deformed coordinates. -/
structure PoseImage where
  coordinates : List Vector3f
deriving DecidableEq, Repr

/-- The library type `mmd::Poser`: the model it was constructed on, its pose image, and the
bone and morph state that only the library reads. -/
structure Poser where
  model : Model
  pose_image : PoseImage
  bones : List Nat
deriving DecidableEq, Repr

/-- The library type `mmd::MotionPlayer`: the motion it was constructed on. The poser it was
constructed on is the one stored in the application state: both loaders build the player
from `*g_state.poser`, and `LoadPMXModel` rebuilds the player whenever it replaces the poser. -/
structure MotionPlayer where
  motion : Motion
deriving DecidableEq, Repr

/-- What the `mmd` library computes: the constructors and the posing functions. -/
structure MmdLib where
  newPoser : Model → Poser
  newMotionPlayer : Motion → Poser → MotionPlayer
  ResetPosing : Poser → Poser
  PrePhysicsPosing : Poser → Poser
  PostPhysicsPosing : Poser → Poser
  Deform : Poser → Poser
  SeekFrame : MotionPlayer → Nat → Poser → Poser

/-- Where a reader stopped. `openFailed`: `utf8_to_wstring`, `FileReader` or the reader's
constructor threw, before the fresh object was made. `parseFailed frag`: `ReadModel` /
`ReadMotion` threw after writing `frag` into the fresh object. `ok a`: it read `a`.
The statements after the read (the constructors of `Poser` and `MotionPlayer`, the
conversion of the name for the console) are taken not to throw. -/
inductive ReadResult (α : Type) where
  | openFailed
  | parseFailed (frag : α)
  | ok (a : α)
deriving DecidableEq, Repr

/-- The global `g_state` (without `pass_action` and `sgimgui`, which belong to the GUI). -/
structure AppState where
  model_filename : String
  motion_filename : String
  model : Option Model
  motion : Option Motion
  poser : Option Poser
  motion_player : Option MotionPlayer
  time : F32
  model_loaded : Bool
  motion_loaded : Bool
  mmd_vtx : List ImPlot3DPoint
  mmd_idx : List Nat
deriving DecidableEq, Repr

/-- The initial value of `g_state`, from its member initialisers. -/
def AppState.initial : AppState :=
  { model_filename := "", motion_filename := "", model := none, motion := none,
    poser := none, motion_player := none, time := F32.zero,
    model_loaded := false, motion_loaded := false, mmd_vtx := [], mmd_idx := [] }

/-! ## Buffers -/

/-- The call `v.resize(n)`, `d` being the value-initialised element. -/
def resize {α : Type} (v : List α) (n : Nat) (d : α) : List α :=
  v.take n ++ List.replicate (n - v.length) d

/-- The axis permutation `{pos.p.x, pos.p.z, pos.p.y}`. -/
def permute (pos : Vector3f) : ImPlot3DPoint := ⟨pos.x, pos.z, pos.y⟩

/-- The loop `for (i = 0; i < n; ++i) buf[i] = permute(src[i])`. -/
def copyVertices (n : Nat) (src : List Vector3f) (buf : List ImPlot3DPoint) : List ImPlot3DPoint :=
  (List.range n).foldl
    (fun b i => match src[i]? with
      | some pos => b.set i (permute pos)
      | none => b)
    buf

/-- The loop `for (i = 0; i < n; ++i)` that stores `v[0]`, `v[1]`, `v[2]` of triangle `i`
at `i*3+0`, `i*3+1`, `i*3+2`. -/
def copyTriangles (n : Nat) (tris : List Triangle) (buf : List Nat) : List Nat :=
  (List.range n).foldl
    (fun b i => match tris[i]? with
      | some t => ((b.set (i * 3 + 0) t.v0).set (i * 3 + 1) t.v1).set (i * 3 + 2) t.v2
      | none => b)
    buf

/-- The function `UpdateModelBuffers`. -/
def UpdateModelBuffers (s : AppState) : AppState :=
  match s.model with
  | none => s
  | some model =>
    if !s.model_loaded then s
    else
      let vertex_num := model.vertices.length
      let vtx := copyVertices vertex_num model.vertices (resize s.mmd_vtx vertex_num ImPlot3DPoint.zero)
      let triangle_num := model.triangles.length
      let idx := copyTriangles triangle_num model.triangles (resize s.mmd_idx (triangle_num * 3) 0)
      { s with mmd_vtx := vtx, mmd_idx := idx }

/-- The function `UpdateDeformedVertices`. -/
def UpdateDeformedVertices (s : AppState) : AppState :=
  match s.model, s.poser with
  | some model, some poser =>
    if !s.model_loaded || s.mmd_vtx.length ≤ 0 then s
    else
      let vertex_num := model.vertices.length
      if vertex_num = 0 || poser.pose_image.coordinates.length < vertex_num then s
      else
        let vtx := copyVertices vertex_num poser.pose_image.coordinates
          (resize s.mmd_vtx vertex_num ImPlot3DPoint.zero)
        { s with mmd_vtx := vtx }
  | _, _ => s

/-! ## Loading -/

/-- The function `LoadPMXModel`: `r` is what the file reader does on the given file; the
result is the returned flag and the state left behind. The fresh `mmd::Model` is assigned to
`g_state.model` before `ReadModel` runs, so a reader that throws leaves it installed. -/
def LoadPMXModel (lib : MmdLib) (r : ReadResult Model) (s : AppState) : Bool × AppState :=
  match r with
  | .openFailed => (false, s)
  | .parseFailed frag => (false, { s with model := some frag })
  | .ok m =>
    let s1 := { s with model := some m, model_loaded := true }
    match s1.model with
    | none => (true, s1)
    | some model =>
      let poser := lib.newPoser model
      let s2 := { s1 with poser := some poser }
      match s2.motion, s2.poser with
      | some motion, some poser =>
        (true, { s2 with motion_player := some (lib.newMotionPlayer motion poser) })
      | _, _ => (true, s2)

/-- The function `LoadVMDMotion`: `r` is what the file reader does on the given file. The
fresh `mmd::Motion` is assigned to `g_state.motion` before `ReadMotion` runs. -/
def LoadVMDMotion (lib : MmdLib) (r : ReadResult Motion) (s : AppState) : Bool × AppState :=
  match r with
  | .openFailed => (false, s)
  | .parseFailed frag => (false, { s with motion := some frag })
  | .ok m =>
    let s1 := { s with motion := some m, motion_loaded := true }
    match s1.model, s1.motion, s1.poser with
    | some _, some motion, some poser =>
      (true, { s1 with motion_player := some (lib.newMotionPlayer motion poser) })
    | _, _, _ => (true, s1)

/-- The function `init`, after the graphics set-up: `rm` and `rv` are what the readers do on
`model_filename` and `motion_filename`. -/
def init (lib : MmdLib) (rm : ReadResult Model) (rv : ReadResult Motion) (s : AppState) :
    AppState :=
  let s1 :=
    if !s.model_filename.isEmpty then
      let s' := (LoadPMXModel lib rm s).2
      if s'.model_loaded then UpdateModelBuffers s' else s'
    else s
  if !s1.motion_filename.isEmpty then (LoadVMDMotion lib rv s1).2 else s1

/-! ## The frame callback -/

/-- The calls that `frame` issues on the poser, the motion player and the buffers. -/
inductive Call where
  | ResetPosing
  | SeekFrame (frame : Nat)
  | PrePhysicsPosing
  | PostPhysicsPosing
  | Deform
  | UpdateDeformedVertices
deriving DecidableEq, Repr

/-- The expression `static_cast<size_t>(g_state.time * 30.0f)`. -/
def frameIndex (time : F32) : Option Nat := (F32.mul time F32.thirty).toSizeT

/-- The posing part of `frame` (the statements before the GUI code): the state it leaves and
the calls it issued, in order; `none` when the conversion of the frame number is undefined.
The `static` local `last_frame` only drives console output. -/
def frame (lib : MmdLib) (s : AppState) : Option (AppState × List Call) :=
  match s.poser with
  | some poser =>
    if s.model_loaded then
      let p1 := lib.ResetPosing poser
      let t1 := [Call.ResetPosing]
      let posed : Option (Poser × List Call) :=
        match s.motion_player with
        | some player =>
          if s.motion_loaded then
            match frameIndex s.time with
            | some frame =>
              let p2 := lib.SeekFrame player frame p1
              let p3 := lib.PrePhysicsPosing p2
              let p4 := lib.PostPhysicsPosing p3
              some (p4, t1 ++ [Call.SeekFrame frame, Call.PrePhysicsPosing, Call.PostPhysicsPosing])
            | none => none
          else some (p1, t1)
        | none => some (p1, t1)
      match posed with
      | some (p, t) =>
        let p5 := lib.Deform p
        let s1 := { s with poser := some p5 }
        some (UpdateDeformedVertices s1, t ++ [Call.Deform, Call.UpdateDeformedVertices])
      | none => none
    else some (s, [])
  | none => some (s, [])

/-- Run `n` consecutive frames: the final state and the calls of all frames, in order. -/
def runFrames (lib : MmdLib) : Nat → AppState → Option (AppState × List Call)
  | 0, s => some (s, [])
  | n + 1, s =>
    match frame lib s with
    | some (s1, t1) =>
      match runFrames lib n s1 with
      | some (s2, t2) => some (s2, t1 ++ t2)
      | none => none
    | none => none

/-! ## Sequences of load attempts -/

/-- One call of a loader, with what its reader does. -/
inductive LoadAttempt where
  | mesh (r : ReadResult Model)
  | timeline (r : ReadResult Motion)
deriving DecidableEq, Repr

/-- The state after one load attempt. -/
def attempt (lib : MmdLib) (s : AppState) : LoadAttempt → AppState
  | .mesh r => (LoadPMXModel lib r s).2
  | .timeline r => (LoadVMDMotion lib r s).2

/-- The state after a sequence of load attempts. -/
def runLoads (lib : MmdLib) (s : AppState) (as : List LoadAttempt) : AppState :=
  as.foldl (attempt lib) s

/-- The attempt is a mesh load that returned `true`. -/
def LoadAttempt.meshOk : LoadAttempt → Bool
  | .mesh (.ok _) => true
  | _ => false

/-- The attempt is a timeline load that returned `true`. -/
def LoadAttempt.timelineOk : LoadAttempt → Bool
  | .timeline (.ok _) => true
  | _ => false

/-- The attempt is a mesh load whose reader threw in the middle of parsing. -/
def LoadAttempt.parseFailedMesh : LoadAttempt → Bool
  | .mesh (.parseFailed _) => true
  | _ => false

/-- The attempt is a timeline load whose reader threw in the middle of parsing. -/
def LoadAttempt.parseFailedTimeline : LoadAttempt → Bool
  | .timeline (.parseFailed _) => true
  | _ => false

/-! ## Command line -/

/-- The function `::tolower` in the "C" locale. -/
def tolower (c : Char) : Char :=
  if 65 ≤ c.toNat ∧ c.toNat ≤ 90 then Char.ofNat (c.toNat + 32) else c

/-- The call `s.find(pat)`: the least position at which `pat` occurs in `s`, `none` for `npos`. -/
def find (pat : List Char) : List Char → Option Nat
  | [] => if pat.isEmpty then some 0 else none
  | c :: cs =>
    if pat.isPrefixOf (c :: cs) then some 0
    else (find pat cs).map (fun i => i + 1)

/-- How the loop body of `sokol_main` classifies one argument. -/
inductive Selection where
  | mesh
  | timeline
  | neither
deriving DecidableEq, Repr

/-- The `if` / `else if` of the loop body of `sokol_main`. -/
def classify (arg : String) : Selection :=
  let lower_arg := arg.toList.map tolower
  if find ".pmx".toList lower_arg ≠ none then Selection.mesh
  else if find ".vmd".toList lower_arg ≠ none then Selection.timeline
  else Selection.neither

/-- The loop body of `sokol_main` for one argument. -/
def processArg (s : AppState) (arg : String) : AppState :=
  match classify arg with
  | .mesh => { s with model_filename := arg }
  | .timeline => { s with motion_filename := arg }
  | .neither => s

/-- The argument loop of `sokol_main`: `argv[0]` is skipped. -/
def sokol_main (argv : List String) (s : AppState) : AppState :=
  (argv.drop 1).foldl processArg s

/-- The spec's notion of file extension: the text from the last `.` of the last path
component to the end, empty when that component has no `.`. -/
def specExtension (path : List Char) : List Char :=
  let comp := (path.reverse.takeWhile (fun c => c != '/' && c != Char.ofNat 92)).reverse
  if comp.contains '.' then '.' :: (comp.reverse.takeWhile (fun c => c != '.')).reverse else []

/-- The spec's classification: by file extension, compared case-insensitively. -/
def specClassify (arg : String) : Selection :=
  let ext := (specExtension arg.toList).map tolower
  if ext = ".pmx".toList then Selection.mesh
  else if ext = ".vmd".toList then Selection.timeline
  else Selection.neither

/-! ## Whole runs -/

/-- One step of the program: the argument loop, one of the four callbacks `init`, `frame`,
`input`, `cleanup`, or a direct call of a loader or of a buffer function. -/
inductive Op where
  | main (argv : List String)
  | init (rm : ReadResult Model) (rv : ReadResult Motion)
  | frame
  | input
  | cleanup
  | loadModel (r : ReadResult Model)
  | loadMotion (r : ReadResult Motion)
  | updateModelBuffers
  | updateDeformedVertices
deriving DecidableEq, Repr

/-- The state and the calls issued by one step; `none` when a frame is undefined. The
callbacks `input` and `cleanup` only call into the GUI and graphics libraries. -/
def step (lib : MmdLib) (s : AppState) : Op → Option (AppState × List Call)
  | .main argv => some (sokol_main argv s, [])
  | .init rm rv => some (init lib rm rv s, [])
  | .frame => frame lib s
  | .input => some (s, [])
  | .cleanup => some (s, [])
  | .loadModel r => some ((LoadPMXModel lib r s).2, [])
  | .loadMotion r => some ((LoadVMDMotion lib r s).2, [])
  | .updateModelBuffers => some (UpdateModelBuffers s, [])
  | .updateDeformedVertices => some (UpdateDeformedVertices s, [])

/-- Run a sequence of steps: the final state and all calls issued, in order. -/
def run (lib : MmdLib) : AppState → List Op → Option (AppState × List Call)
  | s, [] => some (s, [])
  | s, op :: ops =>
    match step lib s op with
    | some (s1, t1) =>
      match run lib s1 ops with
      | some (s2, t2) => some (s2, t1 ++ t2)
      | none => none
    | none => none

/-! ## Concrete instances -/

/-- A library instance that keeps every mesh in its rest pose: `Deform` writes the rest
coordinates into the pose image, `SeekFrame` records the frame number. -/
def restLib : MmdLib :=
  { newPoser := fun m => ⟨m, ⟨[]⟩, []⟩,
    newMotionPlayer := fun mo _ => ⟨mo⟩,
    ResetPosing := fun p => { p with bones := [] },
    PrePhysicsPosing := fun p => p,
    PostPhysicsPosing := fun p => p,
    Deform := fun p => { p with pose_image := ⟨p.model.vertices⟩ },
    SeekFrame := fun _ k p => { p with bones := [k] } }

/-- A library instance whose `Deform` leaves an empty, hence undersized, pose image. -/
def staleLib : MmdLib :=
  { newPoser := fun m => ⟨m, ⟨[]⟩, []⟩,
    newMotionPlayer := fun mo _ => ⟨mo⟩,
    ResetPosing := fun p => p,
    PrePhysicsPosing := fun p => p,
    PostPhysicsPosing := fun p => p,
    Deform := fun p => { p with pose_image := ⟨[]⟩ },
    SeekFrame := fun _ _ p => p }

/-- The binary32 number `k` for a small natural number `k`. -/
def F32.ofNat (k : Nat) : F32 := .finite false k 0

/-- A point with small natural coordinates. -/
def vec (a b c : Nat) : Vector3f := ⟨F32.ofNat a, F32.ofNat b, F32.ofNat c⟩

/-- A mesh of 4 vertices and 2 triangles. -/
def quadModel : Model :=
  { name := "quad",
    vertices := [vec 0 0 0, vec 1 2 3, vec 4 5 6, vec 7 8 9],
    triangles := [⟨0, 1, 2⟩, ⟨2, 1, 3⟩],
    bone_num := 1 }

/-- What a reader has written of a second mesh when it fails midway. -/
def fragModel : Model :=
  { name := "", vertices := [vec 9 9 9], triangles := [], bone_num := 0 }

/-- A timeline. -/
def walkMotion : Motion := { name := "walk", keyframes := [0, 30, 60] }

/-- What a reader has written of a timeline when it fails midway. -/
def fragMotion : Motion := { name := "", keyframes := [] }

/-- The state after `quadModel` was loaded from the initial state and its buffers made. -/
def quadLoaded : AppState :=
  UpdateModelBuffers (LoadPMXModel restLib (.ok quadModel) AppState.initial).2

/-- The binary32 number nearest to `0.7` (the literal `0.7f`): `11744051 * 2^-24`, which is
`0.699999988079071044921875`. -/
def F32.point7 : F32 := .finite false 11744051 (-24)

/-- The binary32 number nearest to `0.999` (the literal `0.999f`): `16760439 * 2^-24`, which
is `0.99900001287460327...`. -/
def F32.point999 : F32 := .finite false 16760439 (-24)

/-- The state after `quadModel` was read from the initial state, before its buffers are made. -/
def quadRead : AppState := (LoadPMXModel restLib (.ok quadModel) AppState.initial).2

/-- A poser of the quad whose pose image has 5 entries. -/
def quadPoser : Poser :=
  { model := quadModel,
    pose_image := ⟨[vec 10 11 12, vec 13 14 15, vec 16 17 18, vec 19 20 21, vec 22 23 24]⟩,
    bones := [] }

/-- The state `quadLoaded` with `quadPoser` as its poser. -/
def quadPosed : AppState := { quadLoaded with poser := some quadPoser }

/-- The state after `walkMotion` was loaded on top of `quadLoaded`. -/
def quadAnimated : AppState := (LoadVMDMotion restLib (.ok walkMotion) quadLoaded).2

/-! ## Properties of the buffer functions -/

theorem length_resize {α : Type} (v : List α) (n : Nat) (d : α) : (resize v n d).length = n := by
  simp only [resize, List.length_append, List.length_take, List.length_replicate]
  omega

theorem length_copyVertices (n : Nat) (src : List Vector3f) (buf : List ImPlot3DPoint) :
    (copyVertices n src buf).length = buf.length := by
  induction n with
  | zero => simp [copyVertices]
  | succ n ih =>
    simp only [copyVertices] at ih ⊢
    rw [List.range_succ, List.foldl_append]
    simp only [List.foldl_cons, List.foldl_nil]
    split <;> simp [ih]

theorem getElem?_copyVertices (n : Nat) (src : List Vector3f) (buf : List ImPlot3DPoint)
    (hn : n ≤ src.length) (j : Nat) :
    (copyVertices n src buf)[j]? =
      if j < n ∧ j < buf.length then (src[j]?).map permute else buf[j]? := by
  induction n with
  | zero => simp [copyVertices]
  | succ n ih =>
    have ih' := ih (by omega)
    have hlen := length_copyVertices n src buf
    simp only [copyVertices] at ih' hlen ⊢
    rw [List.range_succ, List.foldl_append]
    simp only [List.foldl_cons, List.foldl_nil]
    have hs : src[n]? = some (src[n]) := List.getElem?_eq_getElem (by omega)
    rw [hs]
    simp only [List.getElem?_set, hlen, ih']
    by_cases hj : n = j
    · subst hj
      by_cases hb : n < buf.length
      · simp [hb, hs]
      · have hb' : buf.length ≤ n := by omega
        simp [hb, List.getElem?_eq_none hb']
    · simp only [hj, if_false]
      by_cases h1 : j < n
      · have : j < n + 1 := by omega
        simp [h1, this]
      · have : ¬ j < n + 1 := by omega
        simp [h1, this]

theorem length_copyTriangles (n : Nat) (tris : List Triangle) (buf : List Nat) :
    (copyTriangles n tris buf).length = buf.length := by
  induction n with
  | zero => simp [copyTriangles]
  | succ n ih =>
    simp only [copyTriangles] at ih ⊢
    rw [List.range_succ, List.foldl_append]
    simp only [List.foldl_cons, List.foldl_nil]
    split
    · simp only [List.length_set]
      exact ih
    · exact ih

theorem getElem?_copyTriangles (n : Nat) (tris : List Triangle) (buf : List Nat)
    (hn : n ≤ tris.length) (j : Nat) (hj : j < buf.length) :
    (copyTriangles n tris buf)[j]? =
      if j < n * 3 then (tris[j / 3]?).map (fun t => t.v (j % 3)) else buf[j]? := by
  induction n with
  | zero => simp [copyTriangles]
  | succ n ih =>
    have ih' := ih (by omega)
    have hlen := length_copyTriangles n tris buf
    simp only [copyTriangles] at ih' hlen ⊢
    rw [List.range_succ, List.foldl_append]
    simp only [List.foldl_cons, List.foldl_nil]
    have hs : tris[n]? = some (tris[n]) := List.getElem?_eq_getElem (by omega)
    rw [hs]
    simp only [List.getElem?_set, List.length_set, hlen, ih']
    by_cases h0 : n * 3 + 0 = j
    · have hq : j / 3 = n := by omega
      have hr : j % 3 = 0 := by omega
      have h1 : ¬ n * 3 + 1 = j := by omega
      have h2 : ¬ n * 3 + 2 = j := by omega
      have h3 : j < (n + 1) * 3 := by omega
      have h4 : n * 3 + 0 < buf.length := by omega
      simp [h0, h1, h2, h3, h4, hq, hr, hs, hj, Triangle.v]
    · by_cases h1 : n * 3 + 1 = j
      · have hq : j / 3 = n := by omega
        have hr : j % 3 = 1 := by omega
        have h2 : ¬ n * 3 + 2 = j := by omega
        have h3 : j < (n + 1) * 3 := by omega
        have h4 : n * 3 + 1 < buf.length := by omega
        simp [h1, h2, h3, h4, hq, hr, hs, hj, Triangle.v]
      · by_cases h2 : n * 3 + 2 = j
        · have hq : j / 3 = n := by omega
          have hr : j % 3 = 2 := by omega
          have h3 : j < (n + 1) * 3 := by omega
          have h4 : n * 3 + 2 < buf.length := by omega
          simp [h2, h3, h4, hq, hr, hs, hj, Triangle.v]
        · simp only [h0, h1, h2, if_false]
          by_cases h3 : j < n * 3
          · have : j < (n + 1) * 3 := by omega
            simp [h3, this]
          · have : ¬ j < (n + 1) * 3 := by omega
            simp [h3, this]

theorem UpdateModelBuffers_eq (s : AppState) (m : Model)
    (hm : s.model = some m) (hl : s.model_loaded = true) :
    UpdateModelBuffers s =
      { s with
        mmd_vtx := (copyVertices m.vertices.length m.vertices
          (resize s.mmd_vtx m.vertices.length ImPlot3DPoint.zero)),
        mmd_idx := (copyTriangles m.triangles.length m.triangles
          (resize s.mmd_idx (m.triangles.length * 3) 0)) } := by
  simp [UpdateModelBuffers, hm, hl]

theorem UpdateDeformedVertices_cases (s : AppState) :
    UpdateDeformedVertices s = s ∨
    ∃ m p, s.model = some m ∧ s.poser = some p ∧ s.model_loaded = true ∧
      0 < m.vertices.length ∧ m.vertices.length ≤ p.pose_image.coordinates.length ∧
      UpdateDeformedVertices s =
        { s with mmd_vtx := (copyVertices m.vertices.length p.pose_image.coordinates
            (resize s.mmd_vtx m.vertices.length ImPlot3DPoint.zero)) } := by
  unfold UpdateDeformedVertices
  split
  · rename_i m p hm hp
    by_cases h1 : (!s.model_loaded || decide (s.mmd_vtx.length ≤ 0)) = true
    · left; simp only [h1, if_true]
    · by_cases h2 : (decide (m.vertices.length = 0) ||
          decide (p.pose_image.coordinates.length < m.vertices.length)) = true
      · left; simp only [h1, h2, if_true, if_false]; simp
      · right
        have h2' := h2
        rw [Bool.or_eq_true, decide_eq_true_eq, decide_eq_true_eq] at h2'
        refine ⟨m, p, hm, hp, ?_, ?_, ?_, ?_⟩
        · simpa using (show s.model_loaded = true by
            cases h : s.model_loaded <;> simp_all)
        · omega
        · omega
        · simp only [h1, h2]; simp
  · left; rfl

theorem UpdateDeformedVertices_eq (s : AppState) (m : Model) (p : Poser)
    (hm : s.model = some m) (hl : s.model_loaded = true) (hp : s.poser = some p)
    (hbuf : 0 < s.mmd_vtx.length) (hV : 0 < m.vertices.length)
    (hpose : m.vertices.length ≤ p.pose_image.coordinates.length) :
    UpdateDeformedVertices s =
      { s with mmd_vtx := (copyVertices m.vertices.length p.pose_image.coordinates
          (resize s.mmd_vtx m.vertices.length ImPlot3DPoint.zero)) } := by
  have h1 : ¬ s.mmd_vtx.length = 0 := by omega
  have h1' : ¬ s.mmd_vtx = [] := fun h => h1 (by simp [h])
  have h2 : ¬ m.vertices.length = 0 := by omega
  have h2' : ¬ m.vertices = [] := fun h => h2 (by simp [h])
  have h3 : ¬ p.pose_image.coordinates.length < m.vertices.length := by omega
  simp [UpdateDeformedVertices, hm, hp, hl, h1', h2', h3]

theorem copyVertices_resize (n : Nat) (src : List Vector3f) (buf : List ImPlot3DPoint)
    (hn : n ≤ src.length) :
    copyVertices n src (resize buf n ImPlot3DPoint.zero) = (src.take n).map permute := by
  apply List.ext_getElem?
  intro j
  rw [getElem?_copyVertices n src _ hn j, length_resize]
  by_cases hj : j < n
  · simp [hj, List.getElem?_take]
  · have h1 : (resize buf n ImPlot3DPoint.zero).length ≤ j := by rw [length_resize]; omega
    have h2 : (List.map permute (List.take n src)).length ≤ j := by
      simp only [List.length_map, List.length_take]; omega
    simp only [hj, false_and, if_false]
    rw [List.getElem?_eq_none h1, List.getElem?_eq_none h2]

/-- C7: for a loaded mesh with `V` vertices and `T` triangles, `UpdateModelBuffers` leaves an
index array of length `3*T` whose entries `3i`, `3i+1`, `3i+2` are `v[0]`, `v[1]`, `v[2]` of
triangle `i` (original order), and a vertex array of length `V` whose entry `i` is the
rest-pose coordinate of vertex `i` under `(x,y,z) -> (x,z,y)`. -/
theorem UpdateModelBuffers_spec (s : AppState) (m : Model)
    (hm : s.model = some m) (hl : s.model_loaded = true) :
    (UpdateModelBuffers s).mmd_idx.length = 3 * m.triangles.length ∧
    (∀ (i : Nat) (h : i < m.triangles.length),
      (UpdateModelBuffers s).mmd_idx[3 * i]? = some (m.triangles[i]).v0 ∧
      (UpdateModelBuffers s).mmd_idx[3 * i + 1]? = some (m.triangles[i]).v1 ∧
      (UpdateModelBuffers s).mmd_idx[3 * i + 2]? = some (m.triangles[i]).v2) ∧
    (UpdateModelBuffers s).mmd_vtx.length = m.vertices.length ∧
    (∀ (i : Nat) (h : i < m.vertices.length),
      (UpdateModelBuffers s).mmd_vtx[i]? =
        some ⟨(m.vertices[i]).x, (m.vertices[i]).z, (m.vertices[i]).y⟩) := by
  rw [UpdateModelBuffers_eq s m hm hl]
  refine ⟨?_, ?_, ?_, ?_⟩
  · simp only [length_copyTriangles, length_resize]; omega
  · intro i h
    have hlen : (resize s.mmd_idx (m.triangles.length * 3) 0).length = m.triangles.length * 3 :=
      length_resize _ _ _
    have key : ∀ c, c < 3 →
        (copyTriangles m.triangles.length m.triangles
          (resize s.mmd_idx (m.triangles.length * 3) 0))[3 * i + c]? =
          some ((m.triangles[i]).v c) := by
      intro c hc
      rw [getElem?_copyTriangles _ _ _ (le_refl _) _ (by rw [hlen]; omega)]
      have h1 : 3 * i + c < m.triangles.length * 3 := by omega
      have h2 : (3 * i + c) / 3 = i := by omega
      have h3 : (3 * i + c) % 3 = c := by omega
      simp [h1, h2, h3, List.getElem?_eq_getElem h]
    exact ⟨by simpa [Triangle.v] using key 0 (by omega),
      by simpa [Triangle.v] using key 1 (by omega),
      by simpa [Triangle.v] using key 2 (by omega)⟩
  · simp only [length_copyVertices, length_resize]
  · intro i h
    show (copyVertices _ _ _)[i]? = _
    rw [copyVertices_resize _ _ _ (le_refl _)]
    simp [List.getElem?_eq_getElem h, permute]

/-- Witness of C7: the quad, 4 vertices and 2 triangles, gives a vertex array of length 4 and
an index array of length 6 in the original winding. -/
theorem UpdateModelBuffers_spec_witness :
    quadRead.model = some quadModel ∧ quadRead.model_loaded = true ∧
    (UpdateModelBuffers quadRead).mmd_idx.length = 6 ∧
    (UpdateModelBuffers quadRead).mmd_vtx.length = 4 ∧
    (UpdateModelBuffers quadRead).mmd_idx = [0, 1, 2, 2, 1, 3] ∧
    (UpdateModelBuffers quadRead).mmd_vtx[1]? =
      some ⟨F32.ofNat 1, F32.ofNat 3, F32.ofNat 2⟩ :=
  ⟨rfl, rfl, (UpdateModelBuffers_spec quadRead quadModel rfl rfl).1,
   (UpdateModelBuffers_spec quadRead quadModel rfl rfl).2.2.1, by decide,
   (UpdateModelBuffers_spec quadRead quadModel rfl rfl).2.2.2 1 (by decide)⟩

/-- C1: with a mesh of `V > 0` vertices and its poser loaded, the vertex array pre-sized to
`V` and a pose image of at least `V` entries, `UpdateDeformedVertices` leaves a vertex array
of length exactly `V` whose entry `i` is `(p.x, p.z, p.y)` for `p` the pose-image entry `i`,
and pose-image entries from position `V` on do not influence the result. -/
theorem UpdateDeformedVertices_spec (s : AppState) (m : Model) (p : Poser)
    (hm : s.model = some m) (hl : s.model_loaded = true) (hp : s.poser = some p)
    (hV : 0 < m.vertices.length) (hsz : s.mmd_vtx.length = m.vertices.length)
    (hpose : m.vertices.length ≤ p.pose_image.coordinates.length) :
    (UpdateDeformedVertices s).mmd_vtx.length = m.vertices.length ∧
    (∀ (i : Nat) (h : i < m.vertices.length),
      (UpdateDeformedVertices s).mmd_vtx[i]? =
        some ⟨(p.pose_image.coordinates.get ⟨i, Nat.lt_of_lt_of_le h hpose⟩).x,
              (p.pose_image.coordinates.get ⟨i, Nat.lt_of_lt_of_le h hpose⟩).z,
              (p.pose_image.coordinates.get ⟨i, Nat.lt_of_lt_of_le h hpose⟩).y⟩) ∧
    (∀ p' : Poser,
      p'.pose_image.coordinates.take m.vertices.length =
        p.pose_image.coordinates.take m.vertices.length →
      (UpdateDeformedVertices { s with poser := some p' }).mmd_vtx =
        (UpdateDeformedVertices s).mmd_vtx) := by
  have hbuf : 0 < s.mmd_vtx.length := by omega
  rw [UpdateDeformedVertices_eq s m p hm hl hp hbuf hV hpose]
  refine ⟨?_, ?_, ?_⟩
  · simp only [length_copyVertices, length_resize]
  · intro i h
    show (copyVertices _ _ _)[i]? = _
    rw [copyVertices_resize _ _ _ hpose]
    have hi : i < p.pose_image.coordinates.length := Nat.lt_of_lt_of_le h hpose
    simp [List.getElem?_take, h, List.getElem?_eq_getElem hi, permute]
  · intro p' htake
    have hpose' : m.vertices.length ≤ p'.pose_image.coordinates.length := by
      have := congrArg List.length htake
      simp only [List.length_take] at this
      omega
    rw [UpdateDeformedVertices_eq { s with poser := some p' } m p' hm hl rfl hbuf hV hpose']
    show copyVertices _ _ _ = copyVertices _ _ _
    rw [copyVertices_resize _ _ _ hpose', copyVertices_resize _ _ _ hpose, htake]

/-- Witness of C1: the quad with a pose image of 5 entries, one more than it has vertices. -/
theorem UpdateDeformedVertices_spec_witness :
    quadPosed.model = some quadModel ∧ quadPosed.model_loaded = true ∧
    quadPosed.poser = some quadPoser ∧ 0 < quadModel.vertices.length ∧
    quadPosed.mmd_vtx.length = quadModel.vertices.length ∧
    quadModel.vertices.length ≤ quadPoser.pose_image.coordinates.length ∧
    (UpdateDeformedVertices quadPosed).mmd_vtx.length = 4 ∧
    (UpdateDeformedVertices quadPosed).mmd_vtx[0]? =
      some ⟨F32.ofNat 10, F32.ofNat 12, F32.ofNat 11⟩ :=
  ⟨rfl, rfl, rfl, by decide, rfl, by decide,
   (UpdateDeformedVertices_spec quadPosed quadModel quadPoser rfl rfl rfl
      (by decide) rfl (by decide)).1,
   (UpdateDeformedVertices_spec quadPosed quadModel quadPoser rfl rfl rfl
      (by decide) rfl (by decide)).2.1 0 (by decide)⟩

/-- C2: when the pose image has fewer entries than the mesh has vertices,
`UpdateDeformedVertices` changes nothing: the vertex array keeps its length and every entry,
the index array is unchanged, and so is the rest of the state. -/
theorem UpdateDeformedVertices_stale (s : AppState) (m : Model) (p : Poser)
    (hm : s.model = some m) (hp : s.poser = some p)
    (hlt : p.pose_image.coordinates.length < m.vertices.length) :
    (UpdateDeformedVertices s).mmd_vtx.length = s.mmd_vtx.length ∧
    (∀ i : Nat, (UpdateDeformedVertices s).mmd_vtx[i]? = s.mmd_vtx[i]?) ∧
    (UpdateDeformedVertices s).mmd_idx = s.mmd_idx ∧
    UpdateDeformedVertices s = s := by
  have h : UpdateDeformedVertices s = s := by
    rcases UpdateDeformedVertices_cases s with h | ⟨m', p', hm', hp', _, _, hle, _⟩
    · exact h
    · rw [hm] at hm'; rw [hp] at hp'
      cases hm'; cases hp'
      omega
  rw [h]
  exact ⟨rfl, fun _ => rfl, rfl, rfl⟩

/-- Witness of C2: the quad right after loading, its pose image still empty. -/
theorem UpdateDeformedVertices_stale_witness :
    quadLoaded.model = some quadModel ∧
    quadLoaded.poser = some (restLib.newPoser quadModel) ∧
    (restLib.newPoser quadModel).pose_image.coordinates.length < quadModel.vertices.length ∧
    UpdateDeformedVertices quadLoaded = quadLoaded :=
  ⟨rfl, rfl, by decide,
   (UpdateDeformedVertices_stale quadLoaded quadModel (restLib.newPoser quadModel) rfl rfl
      (by decide)).2.2.2⟩

/-! ## Properties of the frame callback -/

theorem frame_idle (lib : MmdLib) (s : AppState)
    (h : s.poser = none ∨ s.model_loaded = false) : frame lib s = some (s, []) := by
  unfold frame
  rcases h with h | h
  · rw [h]
  · cases hp : s.poser <;> simp [h]

theorem frame_rest (lib : MmdLib) (s : AppState) (p : Poser)
    (hl : s.model_loaded = true) (hp : s.poser = some p)
    (h : s.motion_loaded = false ∨ s.motion_player = none) :
    frame lib s =
      some (UpdateDeformedVertices { s with poser := some (lib.Deform (lib.ResetPosing p)) },
        [Call.ResetPosing, Call.Deform, Call.UpdateDeformedVertices]) := by
  unfold frame
  rcases h with h | h
  · cases hpl : s.motion_player <;> simp [hp, hl, h]
  · simp [hp, hl, h]

theorem frame_motion (lib : MmdLib) (s : AppState) (p : Poser) (pl : MotionPlayer) (k : Nat)
    (hl : s.model_loaded = true) (hp : s.poser = some p)
    (hml : s.motion_loaded = true) (hpl : s.motion_player = some pl)
    (hk : frameIndex s.time = some k) :
    frame lib s =
      some (UpdateDeformedVertices { s with poser := some (lib.Deform (lib.PostPhysicsPosing
          (lib.PrePhysicsPosing (lib.SeekFrame pl k (lib.ResetPosing p))))) },
        [Call.ResetPosing, Call.SeekFrame k, Call.PrePhysicsPosing, Call.PostPhysicsPosing,
          Call.Deform, Call.UpdateDeformedVertices]) := by
  unfold frame
  simp [hp, hl, hml, hpl, hk]

theorem frame_undefined (lib : MmdLib) (s : AppState) (p : Poser) (pl : MotionPlayer)
    (hl : s.model_loaded = true) (hp : s.poser = some p)
    (hml : s.motion_loaded = true) (hpl : s.motion_player = some pl)
    (hk : frameIndex s.time = none) : frame lib s = none := by
  unfold frame
  simp [hp, hl, hml, hpl, hk]

/-- Every outcome of `frame`: the state is unchanged, or it is `UpdateDeformedVertices` of the
state with a new poser; the calls are none, the three of a frame without timeline, or the
six of a frame with timeline, whose `SeekFrame` carries the frame number of the clock. -/
theorem frame_cases (lib : MmdLib) (s s' : AppState) (t : List Call)
    (h : frame lib s = some (s', t)) :
    (s' = s ∧ t = []) ∨
    (∃ p, s.poser ≠ none ∧ s' = UpdateDeformedVertices { s with poser := some p } ∧
      (t = [Call.ResetPosing, Call.Deform, Call.UpdateDeformedVertices] ∨
       ∃ k, frameIndex s.time = some k ∧
         t = [Call.ResetPosing, Call.SeekFrame k, Call.PrePhysicsPosing,
           Call.PostPhysicsPosing, Call.Deform, Call.UpdateDeformedVertices])) := by
  rcases Option.eq_none_or_eq_some s.poser with hp | ⟨p, hp⟩
  · rw [frame_idle lib s (Or.inl hp)] at h
    cases h; exact Or.inl ⟨rfl, rfl⟩
  have hne : s.poser ≠ none := by rw [hp]; exact Option.some_ne_none p
  rcases Bool.eq_false_or_eq_true s.model_loaded with hl | hl
  swap
  · rw [frame_idle lib s (Or.inr hl)] at h
    cases h; exact Or.inl ⟨rfl, rfl⟩
  rcases Bool.eq_false_or_eq_true s.motion_loaded with hml | hml
  swap
  · rw [frame_rest lib s p hl hp (Or.inl hml)] at h
    cases h; exact Or.inr ⟨_, hne, rfl, Or.inl rfl⟩
  rcases Option.eq_none_or_eq_some s.motion_player with hpl | ⟨pl, hpl⟩
  · rw [frame_rest lib s p hl hp (Or.inr hpl)] at h
    cases h; exact Or.inr ⟨_, hne, rfl, Or.inl rfl⟩
  rcases Option.eq_none_or_eq_some (frameIndex s.time) with hk | ⟨k, hk⟩
  · rw [frame_undefined lib s p pl hl hp hml hpl hk] at h; cases h
  · rw [frame_motion lib s p pl k hl hp hml hpl hk] at h
    cases h; exact Or.inr ⟨_, hne, rfl, Or.inr ⟨k, hk, rfl⟩⟩

theorem frame_defined (lib : MmdLib) (s : AppState) (h : frameIndex s.time ≠ none) :
    frame lib s ≠ none := by
  intro hn
  rcases Option.eq_none_or_eq_some s.poser with hp | ⟨p, hp⟩
  · rw [frame_idle lib s (Or.inl hp)] at hn; cases hn
  rcases Bool.eq_false_or_eq_true s.model_loaded with hl | hl
  swap
  · rw [frame_idle lib s (Or.inr hl)] at hn; cases hn
  rcases Bool.eq_false_or_eq_true s.motion_loaded with hml | hml
  swap
  · rw [frame_rest lib s p hl hp (Or.inl hml)] at hn; cases hn
  rcases Option.eq_none_or_eq_some s.motion_player with hpl | ⟨pl, hpl⟩
  · rw [frame_rest lib s p hl hp (Or.inr hpl)] at hn; cases hn
  rcases Option.eq_none_or_eq_some (frameIndex s.time) with hk | ⟨k, hk⟩
  · exact h hk
  · rw [frame_motion lib s p pl k hl hp hml hpl hk] at hn; cases hn

/-- What `UpdateDeformedVertices` keeps: every field but the vertex array. -/
theorem UpdateDeformedVertices_frame (s : AppState) :
    ∃ vtx, UpdateDeformedVertices s = { s with mmd_vtx := vtx } := by
  rcases UpdateDeformedVertices_cases s with h | ⟨m, p, _, _, _, _, _, h⟩
  · exact ⟨s.mmd_vtx, h⟩
  · exact ⟨_, h⟩

/-- What `frame` keeps: every field but the poser and the vertex array. -/
theorem frame_keeps (lib : MmdLib) (s s' : AppState) (t : List Call)
    (h : frame lib s = some (s', t)) :
    s'.time = s.time ∧ s'.model = s.model ∧ s'.motion = s.motion ∧
    s'.motion_player = s.motion_player ∧ s'.model_loaded = s.model_loaded ∧
    s'.motion_loaded = s.motion_loaded ∧ s'.mmd_idx = s.mmd_idx ∧
    s'.model_filename = s.model_filename ∧ s'.motion_filename = s.motion_filename ∧
    (s'.poser = none ↔ s.poser = none) := by
  rcases frame_cases lib s s' t h with ⟨rfl, _⟩ | ⟨p, hne, rfl, _⟩
  · simp
  · obtain ⟨vtx, hv⟩ := UpdateDeformedVertices_frame { s with poser := some p }
    rw [hv]
    refine ⟨rfl, rfl, rfl, rfl, rfl, rfl, rfl, rfl, rfl, ?_⟩
    simp [hne]

/-- C3 (amended): in a frame with the mesh and its poser loaded, `frame` issues `ResetPosing`,
`Deform` and the buffer sync, each once and in that order; when `motion_loaded` is set and a
motion player exists (and the clock has a frame number `k`) it issues `SeekFrame k`,
`PrePhysicsPosing`, `PostPhysicsPosing`, each once and in that order, between `ResetPosing`
and `Deform`; in a frame with no timeline it issues none of these three. The poser left
behind is the composition of the library functions in the same order. -/
theorem frame_call_order (lib : MmdLib) (s : AppState) (p : Poser)
    (hl : s.model_loaded = true) (hp : s.poser = some p) :
    ((s.motion_loaded = false ∨ s.motion_player = none) →
      frame lib s =
        some (UpdateDeformedVertices
            { s with poser := some (lib.Deform (lib.ResetPosing p)) },
          [Call.ResetPosing, Call.Deform, Call.UpdateDeformedVertices])) ∧
    (∀ (pl : MotionPlayer) (k : Nat),
      s.motion_loaded = true → s.motion_player = some pl → frameIndex s.time = some k →
      frame lib s =
        some (UpdateDeformedVertices
            { s with poser := some (lib.Deform (lib.PostPhysicsPosing
              (lib.PrePhysicsPosing (lib.SeekFrame pl k (lib.ResetPosing p))))) },
          [Call.ResetPosing, Call.SeekFrame k, Call.PrePhysicsPosing, Call.PostPhysicsPosing,
            Call.Deform, Call.UpdateDeformedVertices])) :=
  ⟨fun h => frame_rest lib s p hl hp h,
   fun pl k hml hpl hk => frame_motion lib s p pl k hl hp hml hpl hk⟩

/-- Witness of C3 (amended): the quad with a timeline, at time `0`. -/
theorem frame_call_order_witness :
    quadAnimated.model_loaded = true ∧
    quadAnimated.poser = some (restLib.newPoser quadModel) ∧
    quadAnimated.motion_loaded = true ∧
    quadAnimated.motion_player = some ⟨walkMotion⟩ ∧
    frameIndex quadAnimated.time = some 0 ∧
    (frame restLib quadAnimated).map Prod.snd =
      some [Call.ResetPosing, Call.SeekFrame 0, Call.PrePhysicsPosing, Call.PostPhysicsPosing,
        Call.Deform, Call.UpdateDeformedVertices] :=
  ⟨rfl, rfl, rfl, rfl, rfl,
   by rw [(frame_call_order restLib quadAnimated (restLib.newPoser quadModel) rfl rfl).2
        ⟨walkMotion⟩ 0 rfl rfl rfl]; rfl⟩

/-- C3 (counterexample): the quad loaded without a timeline: mesh and poser are loaded, and
the frame issues `ResetPosing`, `Deform` and the buffer sync only, so `PrePhysicsPosing` and
`PostPhysicsPosing` are not issued. -/
theorem frame_without_timeline_skips_physics :
    quadLoaded.model_loaded = true ∧ quadLoaded.poser ≠ none ∧
    quadLoaded.motion_player = none ∧
    (frame restLib quadLoaded).map Prod.snd =
      some [Call.ResetPosing, Call.Deform, Call.UpdateDeformedVertices] ∧
    (frame restLib quadLoaded).map (fun r => r.2.count Call.PrePhysicsPosing) = some 0 ∧
    (frame restLib quadLoaded).map (fun r => r.2.count Call.PostPhysicsPosing) = some 0 := by
  decide

/-! ## The index array stays within the vertex array -/

theorem LoadPMXModel_ok (lib : MmdLib) (m : Model) (s : AppState) :
    LoadPMXModel lib (.ok m) s =
      (true, { s with
        model := some m, model_loaded := true, poser := some (lib.newPoser m),
        motion_player := (match s.motion with
          | some mo => some (lib.newMotionPlayer mo (lib.newPoser m))
          | none => s.motion_player) }) := by
  unfold LoadPMXModel
  cases h : s.motion <;> simp [h]

theorem LoadVMDMotion_ok (lib : MmdLib) (mo : Motion) (s : AppState) :
    LoadVMDMotion lib (.ok mo) s =
      (true, { s with
        motion := some mo, motion_loaded := true,
        motion_player := (match s.model, s.poser with
          | some _, some p => some (lib.newMotionPlayer mo p)
          | _, _ => s.motion_player) }) := by
  unfold LoadVMDMotion
  cases h1 : s.model <;> cases h2 : s.poser <;> simp [h1, h2]

theorem mem_copyTriangles_lt (m : Model) (hwf : m.WellFormed) (buf : List Nat) (x : Nat)
    (hx : x ∈ copyTriangles m.triangles.length m.triangles
      (resize buf (m.triangles.length * 3) 0)) : x < m.vertices.length := by
  obtain ⟨j, hj⟩ := List.mem_iff_getElem?.mp hx
  have hlen : (resize buf (m.triangles.length * 3) 0).length = m.triangles.length * 3 :=
    length_resize _ _ _
  have hjlt : j < m.triangles.length * 3 := by
    have h1 := (List.getElem?_eq_some.mp hj).1
    rw [length_copyTriangles, hlen] at h1
    exact h1
  rw [getElem?_copyTriangles _ _ _ (le_refl _) _ (by rw [hlen]; exact hjlt)] at hj
  have hq : j / 3 < m.triangles.length := by omega
  simp only [hjlt, if_true, List.getElem?_eq_getElem hq, Option.map_some',
    Option.some.injEq] at hj
  have hmem : m.triangles[j / 3] ∈ m.triangles := List.getElem_mem _
  obtain ⟨h0, h1, h2⟩ := hwf _ hmem
  rw [← hj]
  unfold Triangle.v
  split_ifs <;> assumption

/-- The invariant of the buffers for the mesh `m`: `m` is the stored mesh, the vertex array
has one entry per vertex, every entry of the index array is below the vertex count. -/
theorem buffers_after_load (lib : MmdLib) (s0 : AppState) (m : Model) (hwf : m.WellFormed) :
    (UpdateModelBuffers (LoadPMXModel lib (.ok m) s0).2).model = some m ∧
    (UpdateModelBuffers (LoadPMXModel lib (.ok m) s0).2).mmd_vtx.length = m.vertices.length ∧
    (∀ x ∈ (UpdateModelBuffers (LoadPMXModel lib (.ok m) s0).2).mmd_idx,
      x < m.vertices.length) ∧
    (UpdateModelBuffers (LoadPMXModel lib (.ok m) s0).2).time = s0.time := by
  rw [LoadPMXModel_ok]
  rw [UpdateModelBuffers_eq _ m rfl rfl]
  refine ⟨rfl, ?_, ?_, rfl⟩
  · simp only [length_copyVertices, length_resize]
  · intro x hx
    exact mem_copyTriangles_lt m hwf _ x hx

theorem frame_keeps_buffers (lib : MmdLib) (m : Model) (s s' : AppState) (t : List Call)
    (h : frame lib s = some (s', t))
    (hm : s.model = some m) (hv : s.mmd_vtx.length = m.vertices.length) :
    s'.model = some m ∧ s'.mmd_vtx.length = m.vertices.length ∧ s'.mmd_idx = s.mmd_idx ∧
    s'.time = s.time := by
  rcases frame_cases lib s s' t h with ⟨rfl, _⟩ | ⟨p, _, rfl, _⟩
  · exact ⟨hm, hv, rfl, rfl⟩
  · rcases UpdateDeformedVertices_cases { s with poser := some p } with
      h1 | ⟨m', p', hm', _, _, _, _, h1⟩
    · rw [h1]; exact ⟨hm, hv, rfl, rfl⟩
    · rw [h1]
      have : m' = m := by
        have h2 : s.model = some m' := hm'
        rw [hm] at h2
        exact (Option.some.inj h2).symm
      subst this
      refine ⟨hm, ?_, rfl, rfl⟩
      simp only [length_copyVertices, length_resize]

theorem runFrames_keeps_buffers (lib : MmdLib) (m : Model) (n : Nat) :
    ∀ (s s' : AppState) (t : List Call), runFrames lib n s = some (s', t) →
      s.model = some m → s.mmd_vtx.length = m.vertices.length →
      s'.mmd_vtx.length = m.vertices.length ∧ s'.mmd_idx = s.mmd_idx := by
  induction n with
  | zero =>
    intro s s' t h hm hv
    simp only [runFrames, Option.some.injEq, Prod.mk.injEq] at h
    rw [← h.1]; exact ⟨hv, rfl⟩
  | succ n ih =>
    intro s s' t h hm hv
    simp only [runFrames] at h
    rcases hf : frame lib s with _ | ⟨s1, t1⟩
    · rw [hf] at h; cases h
    · rw [hf] at h
      simp only at h
      rcases hr : runFrames lib n s1 with _ | ⟨s2, t2⟩
      · rw [hr] at h; cases h
      · rw [hr] at h
        simp only [Option.some.injEq, Prod.mk.injEq] at h
        obtain ⟨hm1, hv1, hi1, _⟩ := frame_keeps_buffers lib m s s1 t1 hf hm hv
        obtain ⟨hv2, hi2⟩ := ih s1 s2 t2 hr hm1 hv1
        rw [← h.1]
        exact ⟨hv2, by rw [hi2, hi1]⟩

theorem runFrames_defined (lib : MmdLib) (n : Nat) :
    ∀ s : AppState, frameIndex s.time ≠ none → runFrames lib n s ≠ none := by
  induction n with
  | zero => intro s _; simp [runFrames]
  | succ n ih =>
    intro s hs
    simp only [runFrames]
    rcases hf : frame lib s with _ | ⟨s1, t1⟩
    · exact absurd hf (frame_defined lib s hs)
    · have ht : s1.time = s.time := (frame_keeps lib s s1 t1 hf).1
      have h1 := ih s1 (by rw [ht]; exact hs)
      rcases hr : runFrames lib n s1 with _ | ⟨s2, t2⟩
      · exact absurd hr h1
      · simp [hr]

/-- C6: for a mesh that satisfies its invariant, after a successful `LoadPMXModel`,
`UpdateModelBuffers` and any number of frames, whatever the library leaves in the pose image,
every entry of the index array is below the length of the vertex array; and the frames are
all defined when the clock has a frame number. -/
theorem index_below_vertex_count (lib : MmdLib) (s0 : AppState) (m : Model)
    (hwf : m.WellFormed) (n : Nat) :
    (∀ (s' : AppState) (t : List Call),
      runFrames lib n (UpdateModelBuffers (LoadPMXModel lib (.ok m) s0).2) = some (s', t) →
      ∀ x ∈ s'.mmd_idx, x < s'.mmd_vtx.length) ∧
    (frameIndex s0.time ≠ none →
      runFrames lib n (UpdateModelBuffers (LoadPMXModel lib (.ok m) s0).2) ≠ none) := by
  obtain ⟨hm, hv, hidx, ht⟩ := buffers_after_load lib s0 m hwf
  constructor
  · intro s' t hrun x hx
    obtain ⟨hv', hi'⟩ := runFrames_keeps_buffers lib m n _ s' t hrun hm hv
    rw [hv']
    rw [hi'] at hx
    exact hidx x hx
  · intro h0
    exact runFrames_defined lib n _ (by rw [ht]; exact h0)

/-- Witness of C6: the quad under a library whose pose image stays empty, two frames. -/
theorem index_below_vertex_count_witness :
    quadModel.WellFormed ∧
    runFrames staleLib 2 (UpdateModelBuffers (LoadPMXModel staleLib (.ok quadModel)
        AppState.initial).2) =
      some (quadLoaded,
        [Call.ResetPosing, Call.Deform, Call.UpdateDeformedVertices,
         Call.ResetPosing, Call.Deform, Call.UpdateDeformedVertices]) ∧
    ∀ x ∈ quadLoaded.mmd_idx, x < quadLoaded.mmd_vtx.length :=
  ⟨by decide, by decide,
   (index_below_vertex_count staleLib AppState.initial quadModel
      (by decide) 2).1 quadLoaded
      [Call.ResetPosing, Call.Deform, Call.UpdateDeformedVertices,
       Call.ResetPosing, Call.Deform, Call.UpdateDeformedVertices] (by decide)⟩

/-! ## The playback clock -/

theorem processArg_keeps (s : AppState) (arg : String) :
    (processArg s arg).time = s.time := by
  unfold processArg
  split <;> rfl

theorem sokol_main_keeps (argv : List String) (s : AppState) :
    (sokol_main argv s).time = s.time := by
  unfold sokol_main
  generalize argv.drop 1 = l
  induction l generalizing s with
  | nil => rfl
  | cons a l ih => rw [List.foldl_cons, ih, processArg_keeps]

theorem LoadPMXModel_time (lib : MmdLib) (r : ReadResult Model) (s : AppState) :
    (LoadPMXModel lib r s).2.time = s.time := by
  cases r with
  | openFailed => rfl
  | parseFailed frag => rfl
  | ok m => rw [LoadPMXModel_ok]

theorem LoadVMDMotion_time (lib : MmdLib) (r : ReadResult Motion) (s : AppState) :
    (LoadVMDMotion lib r s).2.time = s.time := by
  cases r with
  | openFailed => rfl
  | parseFailed frag => rfl
  | ok m => rw [LoadVMDMotion_ok]

theorem UpdateModelBuffers_time (s : AppState) : (UpdateModelBuffers s).time = s.time := by
  unfold UpdateModelBuffers
  split
  · rfl
  · split <;> rfl

theorem UpdateDeformedVertices_time (s : AppState) :
    (UpdateDeformedVertices s).time = s.time := by
  obtain ⟨vtx, h⟩ := UpdateDeformedVertices_frame s
  rw [h]

theorem init_time (lib : MmdLib) (rm : ReadResult Model) (rv : ReadResult Motion)
    (s : AppState) : (init lib rm rv s).time = s.time := by
  have h1 : (if (!s.model_filename.isEmpty) = true then
      (if (LoadPMXModel lib rm s).2.model_loaded = true
        then UpdateModelBuffers (LoadPMXModel lib rm s).2 else (LoadPMXModel lib rm s).2)
      else s).time = s.time := by
    split
    · split
      · rw [UpdateModelBuffers_time, LoadPMXModel_time]
      · rw [LoadPMXModel_time]
    · rfl
  have key : ∀ s1 : AppState, s1.time = s.time →
      (if (!s1.motion_filename.isEmpty) = true then (LoadVMDMotion lib rv s1).2
        else s1).time = s.time := by
    intro s1 h
    split
    · rw [LoadVMDMotion_time, h]
    · exact h
  exact key _ h1

theorem step_time (lib : MmdLib) (s : AppState) (op : Op) (s' : AppState) (t : List Call)
    (h : step lib s op = some (s', t)) : s'.time = s.time := by
  cases op with
  | main argv =>
    simp only [step, Option.some.injEq, Prod.mk.injEq] at h
    rw [← h.1, sokol_main_keeps]
  | init rm rv =>
    simp only [step, Option.some.injEq, Prod.mk.injEq] at h
    rw [← h.1, init_time]
  | frame => exact (frame_keeps lib s s' t h).1
  | input =>
    simp only [step, Option.some.injEq, Prod.mk.injEq] at h
    rw [← h.1]
  | cleanup =>
    simp only [step, Option.some.injEq, Prod.mk.injEq] at h
    rw [← h.1]
  | loadModel r =>
    simp only [step, Option.some.injEq, Prod.mk.injEq] at h
    rw [← h.1, LoadPMXModel_time]
  | loadMotion r =>
    simp only [step, Option.some.injEq, Prod.mk.injEq] at h
    rw [← h.1, LoadVMDMotion_time]
  | updateModelBuffers =>
    simp only [step, Option.some.injEq, Prod.mk.injEq] at h
    rw [← h.1, UpdateModelBuffers_time]
  | updateDeformedVertices =>
    simp only [step, Option.some.injEq, Prod.mk.injEq] at h
    rw [← h.1, UpdateDeformedVertices_time]

theorem step_seek (lib : MmdLib) (s : AppState) (op : Op) (s' : AppState) (t : List Call)
    (h : step lib s op = some (s', t)) (k : Nat) (hk : Call.SeekFrame k ∈ t) :
    frameIndex s.time = some k := by
  cases op with
  | frame =>
    rcases frame_cases lib s s' t h with ⟨_, rfl⟩ | ⟨p, _, _, rfl | ⟨k', hk', rfl⟩⟩
    · simp at hk
    · simp at hk
    · simp at hk
      rw [hk]; exact hk'
  | main argv =>
    simp only [step, Option.some.injEq, Prod.mk.injEq] at h
    rw [← h.2] at hk; simp at hk
  | input =>
    simp only [step, Option.some.injEq, Prod.mk.injEq] at h
    rw [← h.2] at hk; simp at hk
  | cleanup =>
    simp only [step, Option.some.injEq, Prod.mk.injEq] at h
    rw [← h.2] at hk; simp at hk
  | init rm rv =>
    simp only [step, Option.some.injEq, Prod.mk.injEq] at h
    rw [← h.2] at hk; simp at hk
  | loadModel r =>
    simp only [step, Option.some.injEq, Prod.mk.injEq] at h
    rw [← h.2] at hk; simp at hk
  | loadMotion r =>
    simp only [step, Option.some.injEq, Prod.mk.injEq] at h
    rw [← h.2] at hk; simp at hk
  | updateModelBuffers =>
    simp only [step, Option.some.injEq, Prod.mk.injEq] at h
    rw [← h.2] at hk; simp at hk
  | updateDeformedVertices =>
    simp only [step, Option.some.injEq, Prod.mk.injEq] at h
    rw [← h.2] at hk; simp at hk

theorem step_defined (lib : MmdLib) (s : AppState) (op : Op)
    (h : frameIndex s.time ≠ none) : step lib s op ≠ none := by
  cases op with
  | frame => exact frame_defined lib s h
  | main argv => simp [step]
  | input => simp [step]
  | cleanup => simp [step]
  | init rm rv => simp [step]
  | loadModel r => simp [step]
  | loadMotion r => simp [step]
  | updateModelBuffers => simp [step]
  | updateDeformedVertices => simp [step]

theorem run_from_zero (lib : MmdLib) (ops : List Op) :
    ∀ s : AppState, s.time = F32.zero →
      ∃ s' t, run lib s ops = some (s', t) ∧ s'.time = F32.zero ∧
        ∀ k, Call.SeekFrame k ∈ t → k = 0 := by
  induction ops with
  | nil => intro s hs; exact ⟨s, [], rfl, hs, by simp⟩
  | cons op ops ih =>
    intro s hs
    have hz : frameIndex s.time = some 0 := by rw [hs]; rfl
    have hd := step_defined lib s op (by rw [hz]; simp)
    rcases hst : step lib s op with _ | ⟨s1, t1⟩
    · exact absurd hst hd
    · have ht1 : s1.time = F32.zero := by rw [step_time lib s op s1 t1 hst, hs]
      obtain ⟨s2, t2, hrun, ht2, hseek⟩ := ih s1 ht1
      refine ⟨s2, t1 ++ t2, ?_, ht2, ?_⟩
      · simp [run, hst, hrun]
      · intro k hk
        rcases List.mem_append.mp hk with h | h
        · have := step_seek lib s op s1 t1 hst k h
          rw [hz] at this
          exact (Option.some.inj this).symm
        · exact hseek k h

/-- C10: `frame` leaves the clock as it found it, and so does every other step of the
program; hence every run from the initial state is defined, ends with the clock at `0.0f`,
and every `SeekFrame` it issues carries the frame number `0`. -/
theorem clock_never_written (lib : MmdLib) :
    (∀ (s s' : AppState) (t : List Call), frame lib s = some (s', t) → s'.time = s.time) ∧
    (∀ (s : AppState) (op : Op) (s' : AppState) (t : List Call),
      step lib s op = some (s', t) → s'.time = s.time) ∧
    (∀ ops : List Op, ∃ s' t, run lib AppState.initial ops = some (s', t) ∧
      s'.time = F32.zero ∧ ∀ k, Call.SeekFrame k ∈ t → k = 0) :=
  ⟨fun s s' t h => (frame_keeps lib s s' t h).1,
   fun s op s' t h => step_time lib s op s' t h,
   fun ops => run_from_zero lib ops AppState.initial rfl⟩

/-- Witness of C10: the program started on `quad.pmx` and `walk.vmd`, then two frames: the
run is defined, the clock ends at `0.0f`, and both `SeekFrame` calls carry `0`. -/
theorem clock_never_written_witness :
    (∃ s' t, run restLib AppState.initial
        [Op.main ["viewer", "quad.pmx", "walk.vmd"],
         Op.init (.ok quadModel) (.ok walkMotion), Op.frame, Op.frame] = some (s', t) ∧
      s'.time = F32.zero ∧ ∀ k, Call.SeekFrame k ∈ t → k = 0) ∧
    (run restLib AppState.initial
        [Op.main ["viewer", "quad.pmx", "walk.vmd"],
         Op.init (.ok quadModel) (.ok walkMotion), Op.frame, Op.frame]).map Prod.snd =
      some [Call.ResetPosing, Call.SeekFrame 0, Call.PrePhysicsPosing, Call.PostPhysicsPosing,
        Call.Deform, Call.UpdateDeformedVertices,
        Call.ResetPosing, Call.SeekFrame 0, Call.PrePhysicsPosing, Call.PostPhysicsPosing,
        Call.Deform, Call.UpdateDeformedVertices] :=
  ⟨(clock_never_written restLib).2.2 _, by decide⟩

/-! ## The frame number -/

theorem bitLengthAux_zero (fuel : Nat) : bitLengthAux fuel 0 = 0 := by
  cases fuel <;> simp [bitLengthAux]

theorem bitLengthAux_lower (fuel : Nat) :
    ∀ n : Nat, n ≠ 0 → 2 ^ (bitLengthAux fuel n - 1) ≤ n := by
  induction fuel with
  | zero => intro n hn; simp only [bitLengthAux]; simp; omega
  | succ f ih =>
    intro n hn
    simp only [bitLengthAux, hn, if_false, Nat.add_sub_cancel]
    by_cases h2 : n / 2 = 0
    · rw [h2, bitLengthAux_zero]; simp; omega
    · have := ih (n / 2) h2
      rcases hb : bitLengthAux f (n / 2) with _ | b
      · simp; omega
      · rw [hb] at this
        simp only [Nat.add_sub_cancel] at this
        rw [pow_succ]
        omega

theorem bitLengthAux_upper (fuel : Nat) :
    ∀ n : Nat, n ≤ fuel → n < 2 ^ bitLengthAux fuel n := by
  induction fuel with
  | zero => intro n hn; simp only [bitLengthAux]; simp; omega
  | succ f ih =>
    intro n hn
    by_cases h0 : n = 0
    · simp [bitLengthAux, h0]
    · simp only [bitLengthAux, h0, if_false]
      have := ih (n / 2) (by omega)
      rw [pow_succ]
      omega

/-- The function `bitLength` counts binary digits: `2^(b-1) ≤ n < 2^b`. -/
theorem bitLength_spec (n : Nat) (hn : n ≠ 0) :
    2 ^ (bitLength n - 1) ≤ n ∧ n < 2 ^ bitLength n :=
  ⟨bitLengthAux_lower n n hn, bitLengthAux_upper n n (le_refl n)⟩

theorem bitLength_le (n b : Nat) (h : n < 2 ^ b) : bitLength n ≤ b := by
  by_cases hn : n = 0
  · subst hn; simp [bitLength, bitLengthAux_zero]
  · have h1 := (bitLength_spec n hn).1
    have h2 : 2 ^ (bitLength n - 1) < 2 ^ b := lt_of_le_of_lt h1 h
    have h3 := (Nat.pow_lt_pow_iff_right (by norm_num : 1 < 2)).mp h2
    omega

theorem shiftRoundNE_bounds (n k : Nat) :
    n / 2 ^ k ≤ shiftRoundNE n k ∧ shiftRoundNE n k ≤ n / 2 ^ k + 1 := by
  unfold shiftRoundNE
  simp only
  split_ifs <;> omega

theorem shiftRoundNE_zero (n : Nat) : shiftRoundNE n 0 = n := by
  unfold shiftRoundNE
  simp [Nat.mod_one]

theorem shiftRoundNE_of_zero (k : Nat) : shiftRoundNE 0 k = 0 := by
  unfold shiftRoundNE
  simp

/-- The value truncated by `static_cast<size_t>` is the floor of the rational value. -/
theorem trunc_eq_floor (q : Nat) (e : Int) :
    (if 0 ≤ e then q * 2 ^ e.toNat else q / 2 ^ (-e).toNat) = ⌊(q : ℚ) * (2 : ℚ) ^ e⌋₊ := by
  split_ifs with h
  · obtain ⟨j, rfl⟩ := Int.eq_ofNat_of_zero_le h
    simp only [Int.toNat_ofNat, zpow_natCast]
    have : (q : ℚ) * 2 ^ j = ((q * 2 ^ j : ℕ) : ℚ) := by push_cast; ring
    rw [this, Nat.floor_natCast]
  · have hneg : 0 ≤ -e := by omega
    obtain ⟨j, hj⟩ := Int.eq_ofNat_of_zero_le hneg
    have he : e = -(j : ℤ) := by omega
    subst he
    simp only [neg_neg, Int.toNat_ofNat, zpow_neg, zpow_natCast]
    have : (q : ℚ) * ((2 : ℚ) ^ j)⁻¹ = (q : ℚ) / ((2 ^ j : ℕ) : ℚ) := by
      push_cast; rw [div_eq_mul_inv]
    rw [this, Nat.floor_div_eq_div]

theorem toSizeT_finite (q : Nat) (e : Int) (h : ⌊(q : ℚ) * (2 : ℚ) ^ e⌋₊ < 2 ^ 64) :
    (F32.finite false q e).toSizeT = some ⌊(q : ℚ) * (2 : ℚ) ^ e⌋₊ := by
  unfold F32.toSizeT
  simp only [trunc_eq_floor, Bool.false_and, h, if_true]
  simp

theorem toRat_finite (m : Nat) (e : Int) :
    (F32.finite false m e).toRat = (m : ℚ) * (2 : ℚ) ^ e := by
  simp [F32.toRat]

theorem mul_thirty (m : Nat) (e : Int) :
    F32.mul (.finite false m e) F32.thirty = F32.round false (m * 15) (e + 1) := by
  simp [F32.mul, F32.thirty]

theorem toRat_times_thirty (m : Nat) (e : Int) :
    (F32.finite false m e).toRat * 30 = ((m * 15 : ℕ) : ℚ) * (2 : ℚ) ^ (e + 1) := by
  rw [toRat_finite, zpow_add₀ (by norm_num : (2 : ℚ) ≠ 0)]
  push_cast
  ring

theorem toSizeT_neg_exp (q d : Nat) (h : q / 2 ^ d < 2 ^ 64) :
    (F32.finite false q (-(d : ℤ))).toSizeT = some (q / 2 ^ d) := by
  unfold F32.toSizeT
  simp only [Bool.false_and]
  by_cases hd : d = 0
  · subst hd
    simp at h ⊢
    exact h
  · have h1 : ¬ (0 : ℤ) ≤ -(d : ℤ) := by omega
    simp only [h1, if_false, neg_neg, Int.toNat_ofNat]
    rw [if_pos h]
    rfl

theorem frameIndex_exact (m : Nat) (e : Int)
    (hexact : (F32.mul (.finite false m e) F32.thirty).toRat =
      (F32.finite false m e).toRat * 30)
    (hlt : (F32.finite false m e).toRat * 30 < 2 ^ 64) :
    frameIndex (.finite false m e) = some ⌊(F32.finite false m e).toRat * 30⌋₊ := by
  unfold frameIndex
  rw [mul_thirty] at hexact ⊢
  unfold F32.round at hexact ⊢
  simp only at hexact ⊢
  split_ifs at hexact ⊢ with hov
  · exfalso
    rw [toRat_times_thirty] at hexact
    simp only [F32.toRat] at hexact
    have hpos : (0 : ℚ) < (2 : ℚ) ^ (e + 1) := zpow_pos (by norm_num) _
    have h0 : ((m * 15 : ℕ) : ℚ) = 0 := by
      rcases mul_eq_zero.mp hexact.symm with h | h
      · exact h
      · exact absurd h (ne_of_gt hpos)
    have h0' : m * 15 = 0 := by exact_mod_cast h0
    rw [h0', shiftRoundNE_of_zero] at hov
    exact hov.1 rfl
  · rw [toRat_finite] at hexact
    have hfl : ⌊(F32.finite false m e).toRat * 30⌋₊ < 2 ^ 64 := by
      apply (Nat.floor_lt' (by norm_num)).mpr
      exact_mod_cast hlt
    rw [← hexact] at hfl ⊢
    exact toSizeT_finite _ _ hfl

theorem frameIndex_bounds (m : Nat) (e : Int)
    (hx : (F32.finite false m e).toRat * 30 < 2 ^ 24) :
    ∃ i, frameIndex (.finite false m e) = some i ∧
      ⌊(F32.finite false m e).toRat * 30⌋₊ ≤ i ∧
      i ≤ ⌊(F32.finite false m e).toRat * 30⌋₊ + 1 := by
  unfold frameIndex
  rw [mul_thirty]
  rw [toRat_times_thirty] at hx ⊢
  generalize m * 15 = n at hx ⊢
  by_cases he : 0 ≤ e + 1
  · obtain ⟨j, hj⟩ := Int.eq_ofNat_of_zero_le he
    rw [hj] at hx ⊢
    simp only [zpow_natCast] at hx ⊢
    have hx' : n * 2 ^ j < 2 ^ 24 := by exact_mod_cast hx
    have hpow : 1 ≤ 2 ^ j := Nat.one_le_two_pow
    have hn : n < 2 ^ 24 := lt_of_le_of_lt (Nat.le_mul_of_pos_right n hpow) hx'
    have hbl : bitLength n ≤ 24 := bitLength_le n 24 hn
    have hk : (max ((bitLength n : ℤ) - 24) (-149 - (j : ℤ))).toNat = 0 := by omega
    have hfloor : ⌊(n : ℚ) * 2 ^ j⌋₊ = n * 2 ^ j := by
      have : (n : ℚ) * 2 ^ j = ((n * 2 ^ j : ℕ) : ℚ) := by push_cast; ring
      rw [this, Nat.floor_natCast]
    have hnov : ¬ (n ≠ 0 ∧ 129 ≤ (bitLength n : ℤ) + ((j : ℤ) + (0 : ℕ))) := by
      rintro ⟨hn0, h129⟩
      have hj24 : j < 24 := by
        have h1 : 2 ^ j ≤ n * 2 ^ j := Nat.le_mul_of_pos_left _ (Nat.pos_of_ne_zero hn0)
        exact (Nat.pow_lt_pow_iff_right (by norm_num : 1 < 2)).mp (lt_of_le_of_lt h1 hx')
      omega
    refine ⟨n * 2 ^ j, ?_, by rw [hfloor], by rw [hfloor]; omega⟩
    unfold F32.round
    simp only [hk, shiftRoundNE_zero, hnov, if_false]
    have := toSizeT_finite n ((j : ℤ) + (0 : ℕ)) (by
      simp only [Nat.cast_zero, add_zero, zpow_natCast, hfloor]
      exact lt_trans hx' (by norm_num))
    rw [this]
    simp only [Nat.cast_zero, add_zero, zpow_natCast, hfloor]
  · have hneg : 0 ≤ -(e + 1) := by omega
    obtain ⟨j, hj⟩ := Int.eq_ofNat_of_zero_le hneg
    have he1 : e + 1 = -(j : ℤ) := by omega
    have hj1 : 1 ≤ j := by omega
    rw [he1] at hx ⊢
    have hval : (n : ℚ) * (2 : ℚ) ^ (-(j : ℤ)) = (n : ℚ) / ((2 ^ j : ℕ) : ℚ) := by
      rw [zpow_neg, zpow_natCast, div_eq_mul_inv]; push_cast; rfl
    rw [hval] at hx ⊢
    rw [Nat.floor_div_eq_div]
    have hx' : n < 2 ^ 24 * 2 ^ j := by
      have hpos : (0 : ℚ) < ((2 ^ j : ℕ) : ℚ) := by positivity
      have := (div_lt_iff₀ hpos).mp hx
      exact_mod_cast this
    have hbl : bitLength n ≤ 24 + j := bitLength_le n (24 + j) (by rw [pow_add]; exact hx')
    obtain ⟨k, hk⟩ : ∃ k, (max ((bitLength n : ℤ) - 24) (-149 - -(j : ℤ))).toNat = k := ⟨_, rfl⟩
    have hkj : k ≤ j := by omega
    obtain ⟨hq1, hq2⟩ := shiftRoundNE_bounds n k
    have hsplit : 2 ^ j = 2 ^ k * 2 ^ (j - k) := by
      rw [← pow_add]; congr 1; omega
    have hdiv : n / 2 ^ k < 2 ^ 24 * 2 ^ (j - k) := by
      apply Nat.div_lt_of_lt_mul
      calc n < 2 ^ 24 * 2 ^ j := hx'
        _ = 2 ^ k * (2 ^ 24 * 2 ^ (j - k)) := by rw [hsplit]; ring
    have hqlt : shiftRoundNE n k < 2 ^ (25 + (j - k)) := by
      have : 2 ^ (25 + (j - k)) = 2 * (2 ^ 24 * 2 ^ (j - k)) := by
        rw [pow_add]; norm_num; ring
      have h1 : 1 ≤ 2 ^ 24 * 2 ^ (j - k) := Nat.one_le_iff_ne_zero.mpr (by positivity)
      omega
    have hblq : bitLength (shiftRoundNE n k) ≤ 25 + (j - k) := bitLength_le _ _ hqlt
    have hnov : ¬ (shiftRoundNE n k ≠ 0 ∧
        129 ≤ (bitLength (shiftRoundNE n k) : ℤ) + (-(j : ℤ) + (k : ℕ))) := by
      rintro ⟨_, h129⟩
      omega
    have hexp : (-(j : ℤ) + (k : ℕ)) = -(((j - k : ℕ)) : ℤ) := by omega
    have hfl : n / 2 ^ j = n / 2 ^ k / 2 ^ (j - k) := by
      rw [Nat.div_div_eq_div_mul, ← hsplit]
    have hlow : n / 2 ^ j ≤ shiftRoundNE n k / 2 ^ (j - k) := by
      rw [hfl]; exact Nat.div_le_div_right hq1
    have hup : shiftRoundNE n k / 2 ^ (j - k) ≤ n / 2 ^ j + 1 := by
      rw [hfl]
      have hd : 0 < 2 ^ (j - k) := by positivity
      calc shiftRoundNE n k / 2 ^ (j - k)
          ≤ (n / 2 ^ k + 1) / 2 ^ (j - k) := Nat.div_le_div_right hq2
        _ ≤ (n / 2 ^ k + 2 ^ (j - k)) / 2 ^ (j - k) :=
            Nat.div_le_div_right (by omega)
        _ = n / 2 ^ k / 2 ^ (j - k) + 1 := Nat.add_div_right _ hd
    have hn64 : n / 2 ^ j < 2 ^ 24 := by
      apply Nat.div_lt_of_lt_mul
      rw [mul_comm]; exact hx'
    refine ⟨shiftRoundNE n k / 2 ^ (j - k), ?_, hlow, hup⟩
    unfold F32.round
    simp only [hk]
    rw [if_neg hnov, hexp]
    have hfin : shiftRoundNE n k / 2 ^ (j - k) < 2 ^ 64 := by
      have h24 : (2 : ℕ) ^ 24 < 2 ^ 64 := by norm_num
      omega
    exact toSizeT_neg_exp (shiftRoundNE n k) (j - k) hfin

theorem frame_seek (lib : MmdLib) (s s' : AppState) (t : List Call)
    (h : frame lib s = some (s', t)) (k : Nat) (hk : Call.SeekFrame k ∈ t) :
    frameIndex s.time = some k :=
  step_seek lib s Op.frame s' t h k hk

/-- C5 (amended): the frame number that `frame` passes to `SeekFrame` is
`static_cast<size_t>(time * 30.0f)`, computed in binary32. For a finite non-negative time
`t = m * 2^e` it equals `floor(t * 30)` whenever the binary32 product is exact (and below
`2^64`); whenever `t * 30 < 2^24` it is defined and is `floor(t * 30)` or `floor(t * 30) + 1`.
The times `0.0`, `1.0`, `2.0` give `0`, `30`, `60`, and `0.999f` gives `29`. -/
theorem frameIndex_floor (m : Nat) (e : Int) :
    (∀ (lib : MmdLib) (s s' : AppState) (t : List Call) (k : Nat),
      s.time = F32.finite false m e → frame lib s = some (s', t) → Call.SeekFrame k ∈ t →
      frameIndex (F32.finite false m e) = some k) ∧
    ((F32.mul (F32.finite false m e) F32.thirty).toRat = (F32.finite false m e).toRat * 30 →
      (F32.finite false m e).toRat * 30 < 2 ^ 64 →
      frameIndex (F32.finite false m e) = some ⌊(F32.finite false m e).toRat * 30⌋₊) ∧
    ((F32.finite false m e).toRat * 30 < 2 ^ 24 →
      ∃ i, frameIndex (F32.finite false m e) = some i ∧
        ⌊(F32.finite false m e).toRat * 30⌋₊ ≤ i ∧
        i ≤ ⌊(F32.finite false m e).toRat * 30⌋₊ + 1) ∧
    frameIndex (F32.ofNat 0) = some 0 ∧
    frameIndex (F32.ofNat 1) = some 30 ∧
    frameIndex (F32.ofNat 2) = some 60 ∧
    frameIndex F32.point999 = some 29 :=
  ⟨fun lib s s' t k hs hf hk => by rw [← hs]; exact frame_seek lib s s' t hf k hk,
   frameIndex_exact m e, frameIndex_bounds m e,
   by decide, by decide, by decide, by decide⟩

/-- Witness of C5 (amended): at `t = 1.0` the product is exact and the frame number is
`floor(1.0 * 30) = 30`. -/
theorem frameIndex_floor_witness :
    (F32.mul (F32.finite false 1 0) F32.thirty).toRat = (F32.finite false 1 0).toRat * 30 ∧
    (F32.finite false 1 0).toRat * 30 < 2 ^ 64 ∧
    frameIndex (F32.finite false 1 0) = some ⌊(F32.finite false 1 0).toRat * 30⌋₊ ∧
    ⌊(F32.finite false 1 0).toRat * 30⌋₊ = 30 := by
  have h1 : (F32.mul (F32.finite false 1 0) F32.thirty).toRat =
      (F32.finite false 1 0).toRat * 30 := by
    have : F32.mul (F32.finite false 1 0) F32.thirty = F32.finite false 15 1 := by decide
    rw [this, toRat_finite, toRat_finite]
    norm_num
  have h2 : (F32.finite false 1 0).toRat * 30 < 2 ^ 64 := by
    rw [toRat_finite]; norm_num
  refine ⟨h1, h2, (frameIndex_floor 1 0).2.1 h1 h2, ?_⟩
  rw [toRat_finite]
  norm_num

/-- C5 (counterexample): the binary32 time `t = 11744051 * 2^-24 = 0.69999998807...` has
`t * 30 = 20.99999964...`, so `floor(t * 30) = 20`, but the binary32 product rounds to
`21.0f` and the frame number is `21`. The binary32 time `t = 16777215.0` has
`t * 30 = 503316450` exactly, but the binary32 product rounds to `503316448`, which is the
frame number. -/
theorem frameIndex_not_floor :
    F32.point7.Valid ∧ 0 ≤ F32.point7.toRat ∧
    F32.mul F32.point7 F32.thirty = F32.finite false 11010048 (-19) ∧
    frameIndex F32.point7 = some 21 ∧
    ⌊F32.point7.toRat * 30⌋₊ = 20 ∧
    (F32.ofNat 16777215).Valid ∧
    frameIndex (F32.ofNat 16777215) = some 503316448 ∧
    ⌊(F32.ofNat 16777215).toRat * 30⌋₊ = 503316450 := by
  refine ⟨?_, ?_, by decide, by decide, ?_, ?_, by decide, ?_⟩
  · decide
  · rw [F32.point7, toRat_finite]
    positivity
  · rw [F32.point7, toRat_finite, Nat.floor_eq_iff (by positivity)]
    norm_num
  · decide
  · rw [F32.ofNat, toRat_finite]
    norm_num

/-! ## Load attempts -/

/-- A load whose file cannot be opened leaves the whole state as it was. -/
theorem load_openFailed_keeps (lib : MmdLib) (s : AppState) :
    LoadPMXModel lib .openFailed s = (false, s) ∧
    LoadVMDMotion lib .openFailed s = (false, s) :=
  ⟨rfl, rfl⟩

/-- A load whose reader fails midway returns `false` and keeps the poser, the motion
player, both flags, the clock and the buffers, but stores the fragment that was read. -/
theorem load_parseFailed_keeps (lib : MmdLib) (s : AppState) (fm : Model) (fv : Motion) :
    LoadPMXModel lib (.parseFailed fm) s = (false, { s with model := some fm }) ∧
    LoadVMDMotion lib (.parseFailed fv) s = (false, { s with motion := some fv }) :=
  ⟨rfl, rfl⟩

/-- A load returns `true` exactly when its reader succeeded. -/
theorem load_result (lib : MmdLib) (s : AppState) (rm : ReadResult Model)
    (rv : ReadResult Motion) :
    ((LoadPMXModel lib rm s).1 = true ↔ ∃ m, rm = .ok m) ∧
    ((LoadVMDMotion lib rv s).1 = true ↔ ∃ m, rv = .ok m) := by
  constructor
  · cases rm with
    | openFailed => simp [LoadPMXModel]
    | parseFailed f => simp [LoadPMXModel]
    | ok m => simp [LoadPMXModel_ok]
  · cases rv with
    | openFailed => simp [LoadVMDMotion]
    | parseFailed f => simp [LoadVMDMotion]
    | ok m => simp [LoadVMDMotion_ok]

/-- C4 (the code at the failing input): after the quad was loaded, a second mesh load whose
reader fails midway returns `false`, keeps `model_loaded`, the poser (still built on the
quad) and the buffers, but the stored mesh is now the fragment; and a timeline load that
fails midway on top of a loaded timeline stores the fragment while the motion player still
holds the first timeline. -/
theorem failed_load_replaces_stored_asset :
    quadLoaded.model = some quadModel ∧
    (LoadPMXModel restLib (.parseFailed fragModel) quadLoaded).1 = false ∧
    (LoadPMXModel restLib (.parseFailed fragModel) quadLoaded).2.model = some fragModel ∧
    (LoadPMXModel restLib (.parseFailed fragModel) quadLoaded).2.model_loaded = true ∧
    (LoadPMXModel restLib (.parseFailed fragModel) quadLoaded).2.poser = quadLoaded.poser ∧
    ((LoadPMXModel restLib (.parseFailed fragModel) quadLoaded).2.poser.map
      (fun p => p.model)) = some quadModel ∧
    (LoadPMXModel restLib (.parseFailed fragModel) quadLoaded).2.mmd_idx = [0, 1, 2, 2, 1, 3] ∧
    quadAnimated.motion = some walkMotion ∧
    (LoadVMDMotion restLib (.parseFailed fragMotion) quadAnimated).1 = false ∧
    (LoadVMDMotion restLib (.parseFailed fragMotion) quadAnimated).2.motion = some fragMotion ∧
    (LoadVMDMotion restLib (.parseFailed fragMotion) quadAnimated).2.motion_loaded = true ∧
    (LoadVMDMotion restLib (.parseFailed fragMotion) quadAnimated).2.motion_player =
      some ⟨walkMotion⟩ := by
  decide

/-- The state after one attempt, field by field. -/
theorem attempt_fields (lib : MmdLib) (s : AppState) (a : LoadAttempt) :
    (attempt lib s a).model_loaded = (s.model_loaded || a.meshOk) ∧
    (attempt lib s a).motion_loaded = (s.motion_loaded || a.timelineOk) ∧
    ((attempt lib s a).poser.isSome = (s.poser.isSome || a.meshOk)) ∧
    ((attempt lib s a).motion_player.isSome =
      (s.motion_player.isSome ||
        (a.meshOk && s.motion.isSome) ||
        (a.timelineOk && s.model.isSome && s.poser.isSome))) ∧
    ((attempt lib s a).model.isSome = (s.model.isSome || a.meshOk || a.parseFailedMesh)) ∧
    ((attempt lib s a).motion.isSome =
      (s.motion.isSome || a.timelineOk || a.parseFailedTimeline)) := by
  cases a with
  | mesh r =>
    cases r with
    | openFailed => simp [attempt, LoadPMXModel, LoadAttempt.meshOk, LoadAttempt.timelineOk,
        LoadAttempt.parseFailedMesh, LoadAttempt.parseFailedTimeline]
    | parseFailed f => simp [attempt, LoadPMXModel, LoadAttempt.meshOk, LoadAttempt.timelineOk,
        LoadAttempt.parseFailedMesh, LoadAttempt.parseFailedTimeline]
    | ok m =>
      simp only [attempt, LoadPMXModel_ok, LoadAttempt.meshOk, LoadAttempt.timelineOk,
        LoadAttempt.parseFailedMesh, LoadAttempt.parseFailedTimeline]
      cases h : s.motion <;> simp
  | timeline r =>
    cases r with
    | openFailed => simp [attempt, LoadVMDMotion, LoadAttempt.meshOk, LoadAttempt.timelineOk,
        LoadAttempt.parseFailedMesh, LoadAttempt.parseFailedTimeline]
    | parseFailed f => simp [attempt, LoadVMDMotion, LoadAttempt.meshOk, LoadAttempt.timelineOk,
        LoadAttempt.parseFailedMesh, LoadAttempt.parseFailedTimeline]
    | ok m =>
      simp only [attempt, LoadVMDMotion_ok, LoadAttempt.meshOk, LoadAttempt.timelineOk,
        LoadAttempt.parseFailedMesh, LoadAttempt.parseFailedTimeline]
      cases h1 : s.model <;> cases h2 : s.poser <;> simp

/-- The state after a sequence of attempts in which no reader fails midway: the flags, the
stored assets and the poser record which loads succeeded, and a motion player exists exactly
when both a mesh and a timeline were loaded. -/
theorem runLoads_clean (lib : MmdLib) (as : List LoadAttempt) :
    ∀ s : AppState,
      s.model.isSome = s.model_loaded → s.poser.isSome = s.model_loaded →
      s.motion.isSome = s.motion_loaded →
      s.motion_player.isSome = (s.model_loaded && s.motion_loaded) →
      (∀ a ∈ as, a.parseFailedMesh = false ∧ a.parseFailedTimeline = false) →
      (runLoads lib s as).model_loaded = (s.model_loaded || as.any LoadAttempt.meshOk) ∧
      (runLoads lib s as).motion_loaded = (s.motion_loaded || as.any LoadAttempt.timelineOk) ∧
      (runLoads lib s as).motion_player.isSome =
        ((runLoads lib s as).model_loaded && (runLoads lib s as).motion_loaded) := by
  induction as with
  | nil => intro s _ _ _ h4 _; simp [runLoads, h4]
  | cons a as ih =>
    intro s h1 h2 h3 h4 hclean
    obtain ⟨f1, f2, f3, f4, f5, f6⟩ := attempt_fields lib s a
    obtain ⟨c1, c2⟩ := hclean a (List.mem_cons_self _ _)
    have hrest : ∀ b ∈ as, b.parseFailedMesh = false ∧ b.parseFailedTimeline = false :=
      fun b hb => hclean b (List.mem_cons_of_mem _ hb)
    have g1 : (attempt lib s a).model.isSome = (attempt lib s a).model_loaded := by
      rw [f5, f1, h1, c1]; simp
    have g2 : (attempt lib s a).poser.isSome = (attempt lib s a).model_loaded := by
      rw [f3, f1, h2]
    have g3 : (attempt lib s a).motion.isSome = (attempt lib s a).motion_loaded := by
      rw [f6, f2, h3, c2]; simp
    have g4 : (attempt lib s a).motion_player.isSome =
        ((attempt lib s a).model_loaded && (attempt lib s a).motion_loaded) := by
      rw [f4, f1, f2, h4, h3, h1, h2]
      cases a with
      | mesh r => cases r <;> cases s.model_loaded <;> cases s.motion_loaded <;>
          simp [LoadAttempt.meshOk, LoadAttempt.timelineOk]
      | timeline r => cases r <;> cases s.model_loaded <;> cases s.motion_loaded <;>
          simp [LoadAttempt.meshOk, LoadAttempt.timelineOk]
    obtain ⟨r1, r2, r3⟩ := ih (attempt lib s a) g1 g2 g3 g4 hrest
    have hfold : runLoads lib s (a :: as) = runLoads lib (attempt lib s a) as := rfl
    rw [hfold]
    refine ⟨?_, ?_, r3⟩
    · rw [r1, f1, List.any_cons, Bool.or_assoc]
    · rw [r2, f2, List.any_cons, Bool.or_assoc]

/-- From the initial state, with no reader failing midway, a motion player exists exactly
when a mesh load and a timeline load have both succeeded, in either order. -/
theorem player_iff_both_loaded (lib : MmdLib) (as : List LoadAttempt)
    (hclean : ∀ a ∈ as, a.parseFailedMesh = false ∧ a.parseFailedTimeline = false) :
    (runLoads lib AppState.initial as).motion_player.isSome =
      (as.any LoadAttempt.meshOk && as.any LoadAttempt.timelineOk) := by
  obtain ⟨r1, r2, r3⟩ := runLoads_clean lib as AppState.initial rfl rfl rfl rfl hclean
  rw [r3, r1, r2]
  simp [AppState.initial]

/-- Whatever the readers do, the flags record the successful loads, and once both flags are
set a motion player exists. -/
theorem runLoads_both (lib : MmdLib) (as : List LoadAttempt) :
    ∀ s : AppState,
      (s.model_loaded = true → s.model.isSome = true ∧ s.poser.isSome = true) →
      (s.motion_loaded = true → s.motion.isSome = true) →
      (s.model_loaded = true → s.motion_loaded = true → s.motion_player.isSome = true) →
      (runLoads lib s as).model_loaded = (s.model_loaded || as.any LoadAttempt.meshOk) ∧
      (runLoads lib s as).motion_loaded = (s.motion_loaded || as.any LoadAttempt.timelineOk) ∧
      ((runLoads lib s as).model_loaded = true → (runLoads lib s as).motion_loaded = true →
        (runLoads lib s as).motion_player.isSome = true) := by
  induction as with
  | nil => intro s _ _ h3; simpa [runLoads] using h3
  | cons a as ih =>
    intro s h1 h2 h3
    obtain ⟨f1, f2, f3, f4, f5, f6⟩ := attempt_fields lib s a
    have g1 : (attempt lib s a).model_loaded = true →
        (attempt lib s a).model.isSome = true ∧ (attempt lib s a).poser.isSome = true := by
      rw [f1, f5, f3]
      intro h
      rcases Bool.eq_false_or_eq_true s.model_loaded with hm | hm
      · obtain ⟨i1, i2⟩ := h1 hm
        simp [i1, i2]
      · rw [hm] at h
        simp only [Bool.false_or] at h
        simp [h]
    have g2 : (attempt lib s a).motion_loaded = true →
        (attempt lib s a).motion.isSome = true := by
      rw [f2, f6]
      intro h
      rcases Bool.eq_false_or_eq_true s.motion_loaded with hm | hm
      · simp [h2 hm]
      · rw [hm] at h
        simp only [Bool.false_or] at h
        simp [h]
    have g3 : (attempt lib s a).model_loaded = true → (attempt lib s a).motion_loaded = true →
        (attempt lib s a).motion_player.isSome = true := by
      rw [f1, f2, f4]
      intro ha hb
      cases a with
      | mesh r =>
        cases r with
        | openFailed =>
          simp only [LoadAttempt.meshOk, LoadAttempt.timelineOk, Bool.or_false] at ha hb ⊢
          simp [h3 ha hb]
        | parseFailed f =>
          simp only [LoadAttempt.meshOk, LoadAttempt.timelineOk, Bool.or_false] at ha hb ⊢
          simp [h3 ha hb]
        | ok m =>
          simp only [LoadAttempt.meshOk, LoadAttempt.timelineOk, Bool.or_false] at hb ⊢
          simp [h2 hb]
      | timeline r =>
        cases r with
        | openFailed =>
          simp only [LoadAttempt.meshOk, LoadAttempt.timelineOk, Bool.or_false] at ha hb ⊢
          simp [h3 ha hb]
        | parseFailed f =>
          simp only [LoadAttempt.meshOk, LoadAttempt.timelineOk, Bool.or_false] at ha hb ⊢
          simp [h3 ha hb]
        | ok m =>
          simp only [LoadAttempt.meshOk, LoadAttempt.timelineOk, Bool.or_false] at ha ⊢
          obtain ⟨i1, i2⟩ := h1 ha
          simp [i1, i2]
    obtain ⟨r1, r2, r3⟩ := ih (attempt lib s a) g1 g2 g3
    have hfold : runLoads lib s (a :: as) = runLoads lib (attempt lib s a) as := rfl
    rw [hfold]
    refine ⟨?_, ?_, r3⟩
    · rw [r1, f1, List.any_cons, Bool.or_assoc]
    · rw [r2, f2, List.any_cons, Bool.or_assoc]

/-- From the initial state, whatever the readers do: once a mesh load and a timeline load
have both succeeded, in either order, a motion player exists; and a motion player never
exists before a mesh load has succeeded. -/
theorem player_of_both_loaded (lib : MmdLib) (as : List LoadAttempt)
    (hm : as.any LoadAttempt.meshOk = true) (hv : as.any LoadAttempt.timelineOk = true) :
    (runLoads lib AppState.initial as).motion_player.isSome = true := by
  obtain ⟨r1, r2, r3⟩ := runLoads_both lib as AppState.initial
    (by intro h; cases h) (by intro h; cases h) (by intro h; cases h)
  apply r3
  · rw [r1, hm]; simp
  · rw [r2, hv]; simp

/-- Witness of `player_of_both_loaded`: timeline first, then mesh. -/
theorem player_of_both_loaded_witness :
    [LoadAttempt.timeline (.ok walkMotion), LoadAttempt.mesh (.ok quadModel)].any
      LoadAttempt.meshOk = true ∧
    [LoadAttempt.timeline (.ok walkMotion), LoadAttempt.mesh (.ok quadModel)].any
      LoadAttempt.timelineOk = true ∧
    (runLoads restLib AppState.initial
      [LoadAttempt.timeline (.ok walkMotion), LoadAttempt.mesh (.ok quadModel)]
      ).motion_player.isSome = true :=
  ⟨rfl, rfl, player_of_both_loaded restLib _ rfl rfl⟩

/-- C8 (the code at the failing input): a timeline load whose reader fails midway, followed
by a successful mesh load: no timeline load has succeeded and `motion_loaded` is unset, yet a
motion player exists, built on the fragment. -/
theorem player_without_loaded_timeline :
    [LoadAttempt.timeline (.parseFailed fragMotion), LoadAttempt.mesh (.ok quadModel)].any
      LoadAttempt.timelineOk = false ∧
    (runLoads restLib AppState.initial
      [LoadAttempt.timeline (.parseFailed fragMotion), LoadAttempt.mesh (.ok quadModel)]
      ).motion_loaded = false ∧
    (runLoads restLib AppState.initial
      [LoadAttempt.timeline (.parseFailed fragMotion), LoadAttempt.mesh (.ok quadModel)]
      ).motion_player = some ⟨fragMotion⟩ := by
  decide

/-! ## Command line -/

theorem find_ne_none_iff (pat : List Char) (s : List Char) :
    find pat s ≠ none ↔ pat <:+: s := by
  induction s with
  | nil =>
    simp only [find, List.infix_nil]
    cases pat <;> simp
  | cons c cs ih =>
    rw [List.infix_cons_iff]
    simp only [find]
    by_cases hp : pat.isPrefixOf (c :: cs) = true
    · simp only [hp, if_true]
      have : pat <+: c :: cs := List.isPrefixOf_iff_prefix.mp hp
      simp [this]
    · simp only [hp]
      have hn : ¬ pat <+: c :: cs := fun h => hp (List.isPrefixOf_iff_prefix.mpr h)
      simp only [hn, false_or, ← ih]
      cases find pat cs <;> simp

theorem specExtension_suffix (path : List Char) : specExtension path <:+ path := by
  unfold specExtension
  simp only
  have hcomp : (path.reverse.takeWhile (fun c => c != '/' && c != Char.ofNat 92)).reverse
      <:+ path := by
    have := List.takeWhile_prefix (fun c => c != '/' && c != Char.ofNat 92) (l := path.reverse)
    have h2 := List.reverse_suffix.mpr this
    simpa using h2
  generalize (path.reverse.takeWhile (fun c => c != '/' && c != Char.ofNat 92)).reverse
    = comp at hcomp
  split
  · rename_i hdot
    refine List.IsSuffix.trans ?_ hcomp
    have hsplit := List.takeWhile_append_dropWhile (fun c => c != '.') comp.reverse
    have hmem : '.' ∈ comp.reverse := by
      rw [List.mem_reverse]
      simpa using hdot
    rcases hd : comp.reverse.dropWhile (fun c => c != '.') with _ | ⟨d, rest⟩
    · exfalso
      rw [hd, List.append_nil] at hsplit
      have hall := List.mem_takeWhile_imp (p := fun c => c != '.') (l := comp.reverse)
        (x := '.') (by rw [hsplit]; exact hmem)
      simp at hall
    · have hhead : d = '.' := by
        have := List.head_dropWhile_not (fun c => c != '.') comp.reverse
          (by rw [hd]; simp)
        simp only [hd, List.head_cons] at this
        simpa using this
      subst hhead
      rw [hd] at hsplit
      have hrev : comp = rest.reverse ++
          ('.' :: (comp.reverse.takeWhile (fun c => c != '.')).reverse) := by
        have := congrArg List.reverse hsplit
        simp only [List.reverse_append, List.reverse_cons, List.reverse_reverse,
          List.append_assoc, List.singleton_append] at this
        exact this.symm
      exact ⟨rest.reverse, hrev.symm⟩
  · exact List.nil_suffix

theorem infix_of_specExtension (path : List Char) (ext : List Char)
    (h : (specExtension path).map tolower = ext) : ext <:+: path.map tolower := by
  rw [← h]
  obtain ⟨pre, hpre⟩ := specExtension_suffix path
  refine ⟨pre.map tolower, [], ?_⟩
  rw [List.append_nil, ← List.map_append, hpre]

theorem sokol_main_filenames (argv : List String) (s : AppState) :
    (sokol_main argv s).model_filename =
      (((argv.drop 1).filter (fun a => decide (classify a = Selection.mesh))).getLast?).getD
        s.model_filename ∧
    (sokol_main argv s).motion_filename =
      (((argv.drop 1).filter (fun a => decide (classify a = Selection.timeline))).getLast?).getD
        s.motion_filename := by
  unfold sokol_main
  generalize argv.drop 1 = l
  induction l generalizing s with
  | nil => exact ⟨rfl, rfl⟩
  | cons a l ih =>
    rw [List.foldl_cons]
    obtain ⟨h1, h2⟩ := ih (processArg s a)
    rw [h1, h2]
    unfold processArg
    rcases hc : classify a with _ | _ | _
    · simp [List.filter_cons, hc, List.getLast?_cons]
    · simp [List.filter_cons, hc, List.getLast?_cons]
    · simp [List.filter_cons, hc]

/-- C9 (amended): the loop body of `sokol_main` selects an argument by substring, not by
extension: as the mesh file exactly when its lower-cased text contains `.pmx`, as the
timeline file exactly when it contains `.vmd` and not `.pmx`, as neither otherwise, and it
stores the argument in the matching filename field. An argument whose extension is `.pmx`
is selected as the mesh file; one whose extension is `.vmd` is selected as the timeline file
unless its text contains `.pmx`. Over an argument list, each filename field ends up holding
the last argument selected for it. -/
theorem classify_by_substring (arg : String) :
    (classify arg = Selection.mesh ↔ ".pmx".toList <:+: arg.toList.map tolower) ∧
    (classify arg = Selection.timeline ↔
      ¬ ".pmx".toList <:+: arg.toList.map tolower ∧
        ".vmd".toList <:+: arg.toList.map tolower) ∧
    (classify arg = Selection.neither ↔
      ¬ ".pmx".toList <:+: arg.toList.map tolower ∧
        ¬ ".vmd".toList <:+: arg.toList.map tolower) ∧
    (∀ s : AppState, processArg s arg =
      match classify arg with
      | Selection.mesh => { s with model_filename := arg }
      | Selection.timeline => { s with motion_filename := arg }
      | Selection.neither => s) ∧
    (specClassify arg = Selection.mesh → classify arg = Selection.mesh) ∧
    (specClassify arg = Selection.timeline →
      ¬ ".pmx".toList <:+: arg.toList.map tolower → classify arg = Selection.timeline) ∧
    (∀ (argv : List String) (s : AppState),
      (sokol_main argv s).model_filename =
        (((argv.drop 1).filter (fun a => decide (classify a = Selection.mesh))).getLast?).getD
          s.model_filename ∧
      (sokol_main argv s).motion_filename =
        (((argv.drop 1).filter
          (fun a => decide (classify a = Selection.timeline))).getLast?).getD
          s.motion_filename) := by
  have hp := find_ne_none_iff ".pmx".toList (arg.toList.map tolower)
  have hv := find_ne_none_iff ".vmd".toList (arg.toList.map tolower)
  have c1 : classify arg = Selection.mesh ↔ ".pmx".toList <:+: arg.toList.map tolower := by
    rw [← hp]; unfold classify; simp only
    split_ifs <;> simp_all
  have c2 : classify arg = Selection.timeline ↔
      ¬ ".pmx".toList <:+: arg.toList.map tolower ∧
        ".vmd".toList <:+: arg.toList.map tolower := by
    rw [← hp, ← hv]; unfold classify; simp only
    split_ifs <;> simp_all
  have c3 : classify arg = Selection.neither ↔
      ¬ ".pmx".toList <:+: arg.toList.map tolower ∧
        ¬ ".vmd".toList <:+: arg.toList.map tolower := by
    rw [← hp, ← hv]; unfold classify; simp only
    split_ifs <;> simp_all
  refine ⟨c1, c2, c3, fun s => rfl, ?_, ?_, sokol_main_filenames⟩
  · intro h
    rw [c1]
    apply infix_of_specExtension
    unfold specClassify at h
    simp only at h
    split_ifs at h with h1
    exact h1
  · intro h hno
    rw [c2]
    refine ⟨hno, ?_⟩
    apply infix_of_specExtension
    unfold specClassify at h
    simp only at h
    split_ifs at h with h1 h2
    exact h2

/-- Witness of C9 (amended): `dir/quad.PMX` has the extension `.pmx` and is selected as the
mesh file; `walk.vmd` has the extension `.vmd`, contains no `.pmx`, and is selected as the
timeline file. -/
theorem classify_by_substring_witness :
    specClassify "dir/quad.PMX" = Selection.mesh ∧
    classify "dir/quad.PMX" = Selection.mesh ∧
    specClassify "walk.vmd" = Selection.timeline ∧
    ¬ ".pmx".toList <:+: "walk.vmd".toList.map tolower ∧
    classify "walk.vmd" = Selection.timeline :=
  ⟨by decide, (classify_by_substring "dir/quad.PMX").2.2.2.2.1 (by decide), by decide,
   fun h => absurd ((classify_by_substring "walk.vmd").1.mpr h) (by decide),
   (classify_by_substring "walk.vmd").2.2.2.2.2.1 (by decide)
     (fun h => absurd ((classify_by_substring "walk.vmd").1.mpr h) (by decide))⟩

/-- C9 (counterexample): `model.pmx.bak` has the extension `.bak` and is selected as the
mesh file; `dir.pmx/walk.VMD` has the extension `.vmd` and is selected as the mesh file, not
as the timeline file; `notes.vmd.txt` has the extension `.txt` and is selected as the
timeline file. -/
theorem classify_not_by_extension :
    (specExtension "model.pmx.bak".toList).map tolower = ".bak".toList ∧
    classify "model.pmx.bak" = Selection.mesh ∧
    (sokol_main ["viewer", "model.pmx.bak"] AppState.initial).model_filename = "model.pmx.bak" ∧
    (specExtension "dir.pmx/walk.VMD".toList).map tolower = ".vmd".toList ∧
    classify "dir.pmx/walk.VMD" = Selection.mesh ∧
    (specExtension "notes.vmd.txt".toList).map tolower = ".txt".toList ∧
    classify "notes.vmd.txt" = Selection.timeline := by
  decide

end Mmd
